import Mathlib

/-!
Verification of the ShamanGround threshold-tuning core.

Shallow embedding of three Python components:
- the Phase Oracle (`THOTH_OM_V1/Lunar/lunar_nudge.py`):
  `phase_fraction`, `phase_name`, `_nudges_for`, `compute_nudges`;
- the Nudge Applicator (`THOTH_OM_V1/mask_runtime.py`):
  `compute_lunar_nudges`, `apply_lunar_nudges`;
- the Self-Learning Evaluator
  (`scripts bak/self_learning_evaluator bak 1.py`):
  `decision`, the delta-proposal step, the optional apply step, `main`.

Python floats are modelled as rationals (ideal real arithmetic);
Python dicts as association lists with first-match lookup and
replace-or-append assignment; fallible Python operations (KeyError,
TypeError) as `Except Unit` / `Option` results.
-/

namespace ShamanGround

/-! ## Python-semantics helpers -/

/-- Python `int(x)` on a float: truncation toward zero. -/
def pyTrunc (q : ℚ) : ℤ := if 0 ≤ q then ⌊q⌋ else ⌈q⌉

/-- Python `n & 7` on an int equals `n % 8` with a nonnegative result
(two's-complement bitwise AND against a power-of-two mask). -/
def pyAnd7 (n : ℤ) : ℤ := n % 8

/-- Python `a % m` on floats for `m > 0`: `a - m * floor(a / m)`. -/
def pyFMod (a m : ℚ) : ℚ := a - m * ⌊a / m⌋

/-- Python list prefix test on characters (helper for the `in` operator
on strings). -/
def listStartsWith : List Char → List Char → Bool
  | [], _ => true
  | _ :: _, [] => false
  | a :: as, b :: bs => a == b && listStartsWith as bs

/-- Python substring containment: `needle in hay` for strings. -/
def listContainsSeq : List Char → List Char → Bool
  | needle, [] => listStartsWith needle []
  | needle, b :: bs => listStartsWith needle (b :: bs) || listContainsSeq needle bs

/-- Python `needle in hay` on strings. -/
def pyInStr (needle hay : String) : Bool := listContainsSeq needle.data hay.data

/-- Python list indexing `l[i]` with an int index: nonnegative indexes from
the front, negative indexes from the back, out of range raises (here:
`none`). -/
def pyIndex (l : List String) (i : ℤ) : Option String :=
  if 0 ≤ i then l.get? i.toNat
  else if 0 ≤ (l.length : ℤ) + i then l.get? ((l.length : ℤ) + i).toNat
  else none

/-! ## Phase Oracle — `lunar_nudge.py` -/

/-- `SYNODIC: float = 29.530588853` (mean synodic month in days). -/
def SYNODIC : ℚ := 29530588853 / 1000000000

/-- The fixed ordered table `PHASE_NAMES` from `lunar_nudge.py`. -/
def PHASE_NAMES : List String :=
  ["New Moon", "Waxing Crescent", "First Quarter", "Waxing Gibbous",
   "Full Moon", "Waning Gibbous", "Last Quarter", "Waning Crescent"]

/-- `phase_fraction`: the timestamp is represented by its signed elapsed
seconds since the reference new moon `2000-01-06T18:14:00Z` (the code
subtracts the two UTC datetimes and takes `total_seconds()`).
`d = delta_s / 86400.0; return (d % SYNODIC) / SYNODIC`. -/
def phase_fraction (deltaS : ℚ) : ℚ :=
  pyFMod (deltaS / 86400) SYNODIC / SYNODIC

/-- The bin index of `phase_name`: `int(frac * 8.0 + 0.5) & 7`. -/
def phaseIdx (frac : ℚ) : ℤ := pyAnd7 (pyTrunc (frac * 8 + 1/2))

/-- `phase_name(frac) = PHASE_NAMES[int(frac * 8.0 + 0.5) & 7]`; list
indexing is partial in Python, hence the `Option`. -/
def phase_name (frac : ℚ) : Option String := pyIndex PHASE_NAMES (phaseIdx frac)

/-- Spec-side definition, for the refinement part of claim C7.
Modelled from the spec: `phase_name` "maps fraction to one of 8 names by
computing `round(fraction * 8) mod 8` (ties round to the higher bin)". -/
def phase_name_spec (frac : ℚ) : Option String :=
  pyIndex PHASE_NAMES (⌊frac * 8 + 1/2⌋ % 8)

/-! ## Nudge policy — `lunar_nudge.py` (continued) -/

/-- Dict lookup on a `String → ℚ` association list (first match), i.e.
Python `d[k]` where present. -/
def qLookup (l : List (String × ℚ)) (k : String) : Option ℚ :=
  match l with
  | [] => none
  | (k', v) :: rest => if k' == k then some v else qLookup rest k

/-- Python `d.get(k, 1.0)` on a nudge dict. -/
def qGetD (l : List (String × ℚ)) (k : String) (d : ℚ) : ℚ :=
  (qLookup l k).getD d

/-- Python `d[k] = v` on an association list: replace the first matching
entry, else append. -/
def qSet (l : List (String × ℚ)) (k : String) (v : ℚ) : List (String × ℚ) :=
  match l with
  | [] => [(k, v)]
  | (k', v') :: rest => if k' == k then (k, v) :: rest else (k', v') :: qSet rest k v

/-- `_clamp(x, lo, hi) = hi if x > hi else (lo if x < lo else x)`. -/
def pyClamp (x lo hi : ℚ) : ℚ := if x > hi then hi else if x < lo then lo else x

/-- `_nudges_for(name)`: the default dict of nine levers, then the
phase-specific micro-biases; the final `else` branch catches any name
other than the seven listed (in the source it is labelled Waning
Crescent). -/
def nudges_for (name : String) : List (String × ℚ) :=
  let n : List (String × ℚ) :=
    [("severance", 1), ("harmonizers", 1), ("voice_clarity", 1),
     ("coherence", 1), ("integration", 1), ("translation", 1),
     ("grounding", 1), ("sealing", 1), ("call_harmonizers_bias", 1)]
  if name == "New Moon" then
    qSet (qSet (qSet n "severance" (11/10)) "harmonizers" (19/20)) "grounding" (21/20)
  else if name == "Waxing Crescent" then
    qSet (qSet n "voice_clarity" (21/20)) "translation" (103/100)
  else if name == "First Quarter" then
    qSet (qSet n "coherence" (21/20)) "grounding" (103/100)
  else if name == "Waxing Gibbous" then
    qSet (qSet n "integration" (21/20)) "coherence" (51/50)
  else if name == "Full Moon" then
    qSet (qSet (qSet n "severance" (9/10)) "harmonizers" (11/10))
      "call_harmonizers_bias" (28/25)
  else if name == "Waning Gibbous" then
    qSet (qSet n "translation" (21/20)) "integration" (51/50)
  else if name == "Last Quarter" then
    qSet (qSet n "grounding" (107/100)) "voice_clarity" (49/50)
  else
    qSet (qSet n "sealing" (21/20)) "severance" (103/100)

/-- `compute_nudges(frac, caps)`: looks up the nudge dict for the phase
name and, when `caps` is supplied (a truthy tuple), clamps every value to
`[lo, hi]` with `_clamp`. `phase_name` indexing is partial, hence the
`Option` result. -/
def compute_nudges (frac : ℚ) (caps : Option (ℚ × ℚ)) :
    Option (List (String × ℚ)) :=
  (phase_name frac).map fun nm =>
    let n := nudges_for nm
    match caps with
    | some (lo, hi) => n.map fun kv => (kv.1, pyClamp kv.2 lo hi)
    | none => n

/-! ## Lunar hook — `mask_runtime.py` `compute_lunar_nudges` -/

/-- The `lunar_nudge.yaml` configuration as read by
`compute_lunar_nudges`: the `enabled` flag and the optional `caps`
mapping, itself with optional `min` / `max` entries. A `none`
configuration stands for a missing config file. -/
structure LunarCfg where
  enabled : Bool
  capsMin : Option ℚ
  capsMax : Option ℚ
  capsPresent : Bool
deriving Repr, DecidableEq

/-- The payload returned by `compute_lunar_nudges`. -/
structure LunarPayload where
  phaseFraction : ℚ
  phaseName : String
  nudges : List (String × ℚ)
deriving Repr, DecidableEq

/-- Resolved lower cap: `caps = cfg.get("caps", {"min":0.85,"max":1.15});
mn = float(caps.get("min", 0.85))`. -/
def resolvedMin (cfg : LunarCfg) : ℚ :=
  if cfg.capsPresent then cfg.capsMin.getD (17/20) else 17/20

/-- Resolved upper cap, symmetric to `resolvedMin`. -/
def resolvedMax (cfg : LunarCfg) : ℚ :=
  if cfg.capsPresent then cfg.capsMax.getD (23/20) else 23/20

/-- `compute_lunar_nudges(project_root)`: returns `None` when the config
file is missing or `enabled` is falsy; otherwise computes the phase
fraction for the current instant (modelled by its elapsed seconds `s`),
the raw nudges, and clamps every value with `max(mn, min(mx, v))`.
The inner `Option` from `compute_nudges` is always `some`
(`phase_name_isSome`); the dead branch returns `none`. -/
def compute_lunar_nudges (cfg : Option LunarCfg) (s : ℚ) : Option LunarPayload :=
  match cfg with
  | none => none
  | some c =>
    if !c.enabled then none
    else
      let frac := phase_fraction s
      match compute_nudges frac none, phase_name frac with
      | some n0, some nm =>
        let mn := resolvedMin c
        let mx := resolvedMax c
        some { phaseFraction := frac, phaseName := nm,
               nudges := n0.map fun kv => (kv.1, max mn (min mx kv.2)) }
      | _, _ => none

/-! ## Values and dicts (for the threshold profiles) -/

/-- A Python value as found in a parsed threshold document: a number, a
string, or a nested dict (association list, first-match semantics). -/
inductive Val where
  | num (q : ℚ)
  | str (s : String)
  | obj (fields : List (String × Val))
deriving Repr

/-- Dict lookup `d[k]` (first match) on a `String → Val` association
list. -/
def dLookup : List (String × Val) → String → Option Val
  | [], _ => none
  | (k', v) :: rest, k => if k' == k then some v else dLookup rest k

/-- Python `k in d` on a dict. -/
def dMem (l : List (String × Val)) (k : String) : Bool := (dLookup l k).isSome

/-- Python `d[k] = v`: replace the first matching entry, else append. -/
def dSet : List (String × Val) → String → Val → List (String × Val)
  | [], k, v => [(k, v)]
  | (k', v') :: rest, k, v =>
    if k' == k then (k, v) :: rest else (k', v') :: dSet rest k v

/-- Python `key in v` on an arbitrary value: key test on dicts, substring
test on strings, `TypeError` on numbers. -/
def pyIn (key : String) : Val → Except Unit Bool
  | .obj fs => .ok (dMem fs key)
  | .str s => .ok (pyInStr key s)
  | .num _ => .error ()

/-- Python `v[k]` with a string key: dict lookup (`KeyError` when
absent), `TypeError` on strings and numbers. -/
def pyIdx : Val → String → Except Unit Val
  | .obj fs, k =>
    match dLookup fs k with
    | some v => .ok v
    | none => .error ()
  | _, _ => .error ()

/-- Python `v[k] = x`: dict assignment, `TypeError` otherwise. -/
def pySetIdx : Val → String → Val → Except Unit Val
  | .obj fs, k, x => .ok (.obj (dSet fs k x))
  | _, _, _ => .error ()

/-- Path lookup in a nested value (chained dict indexing, `none` when a
component is absent or a non-dict is traversed). -/
def getPath : Val → List String → Option Val
  | v, [] => some v
  | .obj fs, k :: ks =>
    match dLookup fs k with
    | some v => getPath v ks
    | none => none
  | _, _ :: _ => none

/-- Path lookup starting from a top-level dict. -/
def dGetPath (t : List (String × Val)) (p : List String) : Option Val :=
  getPath (.obj t) p

/-! ## Nudge applicator — `mask_runtime.py` `apply_lunar_nudges` -/

/-- The inner `bump(val, key)`: multiply a numeric value by the lever
`n.get(key, 1.0)`, return any non-numeric value unchanged. -/
def bump (n : List (String × ℚ)) (val : Val) (key : String) : Val :=
  match val with
  | .num q => .num (q * qGetD n key 1)
  | v => v

/-- The three keys bumped in the `meta_gate.coherence` block. -/
def bumpKeys : List String := ["warn_below", "sever_below", "stabilize_above"]

/-- The `for k in [...]: if k in c: c[k] = bump(c[k], "coherence")` loop,
threading the mutated dict. -/
def coherenceLoop (n : List (String × ℚ)) : List String → Val → Except Unit Val
  | [], c => .ok c
  | k :: ks, c => do
    let b ← pyIn k c
    if b then do
      let ck ← pyIdx c k
      let c' ← pySetIdx c k (bump n ck "coherence")
      coherenceLoop n ks c'
    else
      coherenceLoop n ks c

/-- The `meta_gate.coherence` block of `apply_lunar_nudges`. -/
def applyCoherence (n : List (String × ℚ)) (t : List (String × Val)) :
    Except Unit (List (String × Val)) :=
  match dLookup t "meta_gate" with
  | none => .ok t
  | some mgVal => do
    let b ← pyIn "coherence" mgVal
    if b then do
      let c ← pyIdx mgVal "coherence"
      let c' ← coherenceLoop n bumpKeys c
      let mg' ← pySetIdx mgVal "coherence" c'
      .ok (dSet t "meta_gate" mg')
    else .ok t

/-- The `gates.triggers` block of `apply_lunar_nudges`: bump
`early_severance_below` by the `severance` lever, then divide
`call_harmonizers_below` by `max(0.5, call_harmonizers_bias)` (the
division has no numeric guard in the source, so a non-numeric value
raises). -/
def applyTriggers (n : List (String × ℚ)) (t : List (String × Val)) :
    Except Unit (List (String × Val)) :=
  match dLookup t "gates" with
  | none => .ok t
  | some gatesVal => do
    let b ← pyIn "triggers" gatesVal
    if b then do
      let g ← pyIdx gatesVal "triggers"
      let b1 ← pyIn "early_severance_below" g
      let g1 ←
        if b1 then do
          let gv ← pyIdx g "early_severance_below"
          pySetIdx g "early_severance_below" (bump n gv "severance")
        else .ok g
      let b2 ← pyIn "call_harmonizers_below" g1
      let g2 ←
        if b2 then do
          let gv ← pyIdx g1 "call_harmonizers_below"
          let bias := qGetD n "call_harmonizers_bias" 1
          match gv with
          | .num q => pySetIdx g1 "call_harmonizers_below" (.num (q / max (1/2) bias))
          | _ => .error ()
        else .ok g1
      let gates' ← pySetIdx gatesVal "triggers" g2
      .ok (dSet t "gates" gates')
    else .ok t

/-- `apply_lunar_nudges(thresholds, nudges)`: works on a deep copy (the
functional embedding never mutates its argument), extracts
`n = nudges.get("nudges", {}) if nudges else {}`, then runs the two
structural blocks in order. -/
def apply_lunar_nudges (thresholds : List (String × Val))
    (payload : Option LunarPayload) : Except Unit (List (String × Val)) := do
  let n := match payload with | some p => p.nudges | none => []
  let t1 ← applyCoherence n thresholds
  applyTriggers n t1

/-! ## Self-Learning Evaluator — `self_learning_evaluator bak 1.py` -/

/-- `avg(xs) = sum(xs)/len(xs) if xs else None`. -/
def avg (xs : List ℚ) : Option ℚ :=
  if xs.isEmpty then none else some (xs.sum / xs.length)

/-- Python `round(q)`: round half to even (banker's rounding), on the
ideal rational value. -/
def roundHalfEven (q : ℚ) : ℤ :=
  if Int.fract q < 1/2 then ⌊q⌋
  else if 1/2 < Int.fract q then ⌊q⌋ + 1
  else if ⌊q⌋ % 2 = 0 then ⌊q⌋ else ⌊q⌋ + 1

/-- Python `round(q, 4)`. -/
def round4 (q : ℚ) : ℚ := (roundHalfEven (q * 10000) : ℚ) / 10000

/-- One telemetry line after `json.loads`: every field is optional
(`"ts" in r` is tested, the metric fields use `r.get(...)`, `samples`
defaults to 1). Timestamps are modelled by their value in seconds. -/
structure TelemetryRec where
  ts : Option ℚ
  coherence : Option ℚ
  mirror_residual : Option ℚ
  samples : Option ℚ
deriving Repr, DecidableEq

/-- The evaluation verdict. -/
inductive Verdict where
  | insufficient
  | reward
  | penalty
  | neutral
deriving Repr, DecidableEq

/-- The tuning policy as consumed by `main`: `metrics.min_samples`, the
two predicate expressions (modelled as fallible boolean functions of
`coh` and `mir`, `eval` errors included), and the two per-key daily caps
`safety.max_delta_per_day` (defaults 0.04 and 0.02 applied at `.get`). -/
structure Policy where
  minSamples : ℚ
  rewardP : ℚ → ℚ → Except Unit Bool
  penaltyP : ℚ → ℚ → Except Unit Bool
  cCall : ℚ
  cSever : ℚ

/-- The `decision(coh, mir, n)` closure from `main`. -/
def decision (pol : Policy) (coh mir : Option ℚ) (n : ℚ) : Verdict :=
  match coh, mir with
  | some c, some m =>
    if n < pol.minSamples then .insufficient
    else
      match pol.rewardP c m with
      | .error _ => .neutral
      | .ok true => .reward
      | .ok false =>
        match pol.penaltyP c m with
        | .error _ => .neutral
        | .ok true => .penalty
        | .ok false => .neutral
  | _, _ => .insufficient

/-- One proposed delta: `{"path": ..., "delta": ...}`. -/
structure Proposal where
  path : String
  delta : ℚ
deriving Repr, DecidableEq

/-- The proposal-derivation step of `main` (lines 78–86). -/
def proposalsFor (verdict : Verdict) (cCall cSever : ℚ) : List Proposal :=
  match verdict with
  | .reward =>
    [⟨"thresholds.gates.profiles.*.call_harmonizers_below", -(min (1/50) cCall)⟩,
     ⟨"thresholds.gates.profiles.*.early_severance_below", min (1/100) cSever⟩]
  | .penalty =>
    [⟨"thresholds.gates.profiles.*.call_harmonizers_below", min (1/50) cCall⟩,
     ⟨"thresholds.gates.profiles.*.early_severance_below", -(min (1/100) cSever)⟩]
  | _ => []

/-- Python `s.split(".")` on the character list (structural recursion so
that proofs can evaluate it; `String.splitOn` agrees but does not
reduce). -/
def splitDots : List Char → List (List Char)
  | [] => [[]]
  | c :: rest =>
    let r := splitDots rest
    if c = '.' then [] :: r
    else
      match r with
      | [] => [[c]]
      | h :: t => (c :: h) :: t

/-- `pr["path"].split(".")[-1]` (`split` never returns an empty list, so
the `[-1]` index is total; the default is never hit). -/
def lastComp (path : String) : String :=
  ⟨(splitDots path.data).getLastD []⟩

/-- The clamp-and-round update of the apply step (lines 117–127): reads
the old value from the pre-apply profile, clamps `call_harmonizers_below`
to `[0.40, 0.80]` and `early_severance_below` to `[0.20, 0.35]`
(substring key matching, as in the source), rounds to 4 places, and
writes into the accumulating copy. Keys absent or non-numeric in the old
profile are skipped. -/
def applyProposalsToProfile (proposals : List Proposal)
    (prof : List (String × Val)) : List (String × Val) :=
  proposals.foldl (fun acc pr =>
    let key := lastComp pr.path
    match dLookup prof key with
    | some (.num old) =>
      let newV :=
        if pyInStr "call_harmonizers_below" key then
          max (2/5) (min (4/5) (old + pr.delta))
        else if pyInStr "early_severance_below" key then
          max (1/5) (min (7/20) (old + pr.delta))
        else old + pr.delta
      dSet acc key (.num (round4 newV))
    | _ => acc) prof

/-- The effect of the clamp-and-round body on the call key (what one
fold step of `applyProposalsToProfile` does for a proposal whose path
ends in `call_harmonizers_below`). -/
def callUpdate (δ : ℚ) (prof acc : List (String × Val)) : List (String × Val) :=
  match dLookup prof "call_harmonizers_below" with
  | some (.num old) => dSet acc "call_harmonizers_below"
      (.num (round4 (max (2/5) (min (4/5) (old + δ)))))
  | _ => acc

/-- Same as `callUpdate` for the `early_severance_below` key. -/
def severUpdate (δ : ℚ) (prof acc : List (String × Val)) : List (String × Val) :=
  match dLookup prof "early_severance_below" with
  | some (.num old) => dSet acc "early_severance_below"
      (.num (round4 (max (1/5) (min (7/20) (old + δ)))))
  | _ => acc

/-- The apply step over the whole `thresholds.gates.profiles` dict:
non-dict profiles are skipped (`continue`), dict profiles are updated
entry-wise in the deep copy. -/
def applyProposalsToStore (proposals : List Proposal)
    (profiles : List (String × Val)) : List (String × Val) :=
  profiles.map fun nv =>
    match nv.2 with
    | .obj prof => (nv.1, .obj (applyProposalsToProfile proposals prof))
    | v => (nv.1, v)

/-- The observable outcome of one `main` run: the aggregates, the
verdict, the proposals, the `apply` field written into the patch meta
(line 100: `"apply": bool(APPLY)`), the `applied` flag appended to the
learning log (lines 108/129), and the updated profile store when the
apply block ran. -/
structure RunResult where
  cohAvg : Option ℚ
  mirAvg : Option ℚ
  sampleSum : ℚ
  verdict : Verdict
  proposals : List Proposal
  patchApply : Bool
  applied : Bool
  newProfiles : Option (List (String × Val))

/-- The evaluator pipeline of `main` after loading: filter telemetry to
the window (`parse_ts(r["ts"]) >= tcut`, records without `ts` dropped),
average each metric over the records where it is present, sum
`r.get("samples", 1)`, decide, derive proposals, and run the apply block
iff `APPLY and proposals`. -/
def runEval (pol : Policy) (telem : List TelemetryRec) (tcut : ℚ)
    (applyFlag : Bool) (profiles : List (String × Val)) : RunResult :=
  let recent := telem.filter fun r =>
    match r.ts with
    | some t => tcut ≤ t
    | none => false
  let coh := avg (recent.filterMap (·.coherence))
  let mir := avg (recent.filterMap (·.mirror_residual))
  let n := (recent.map (fun r => r.samples.getD 1)).sum
  let verdict := decision pol coh mir n
  let proposals := proposalsFor verdict pol.cCall pol.cSever
  let doApply := applyFlag && !proposals.isEmpty
  { cohAvg := coh, mirAvg := mir, sampleSum := n, verdict := verdict,
    proposals := proposals, patchApply := applyFlag, applied := doApply,
    newProfiles := if doApply then some (applyProposalsToStore proposals profiles) else none }

/-- A fatal load error of `main`. -/
inductive LoadError where
  | policyMissing
deriving Repr, DecidableEq

/-- `main` from the top: `load_yaml` raises `FileNotFoundError` when the
policy file is absent (fatal, before any output is written), while
`read_jsonl` returns `[]` when the telemetry file is absent (line 24:
`if not path.exists(): return []`). -/
def mainRun (policyFile : Option Policy)
    (telemetryFile : Option (List TelemetryRec)) (tcut : ℚ)
    (applyFlag : Bool) (profiles : List (String × Val)) :
    Except LoadError RunResult :=
  match policyFile with
  | none => .error .policyMissing
  | some pol => .ok (runEval pol (telemetryFile.getD []) tcut applyFlag profiles)

/-! ## Designated paths and boolean path prefix test -/

/-- The five leaf paths that `apply_lunar_nudges` may rewrite. -/
def designatedPaths : List (List String) :=
  [["meta_gate", "coherence", "warn_below"],
   ["meta_gate", "coherence", "sever_below"],
   ["meta_gate", "coherence", "stabilize_above"],
   ["gates", "triggers", "early_severance_below"],
   ["gates", "triggers", "call_harmonizers_below"]]

/-- The four designated paths rewritten multiplicatively via `bump`
(the fifth, `call_harmonizers_below`, is divided without a numeric
guard). -/
def multiplicativePaths : List (List String) :=
  [["meta_gate", "coherence", "warn_below"],
   ["meta_gate", "coherence", "sever_below"],
   ["meta_gate", "coherence", "stabilize_above"],
   ["gates", "triggers", "early_severance_below"]]

/-- Boolean test: the first path is an initial segment of the second. -/
def isPathPre : List String → List String → Bool
  | [], _ => true
  | _ :: _, [] => false
  | a :: as, b :: bs => a == b && isPathPre as bs

/-! ## Concrete fixtures (used by witnesses and counterexamples) -/

/-- The default tuning policy of the source: `min_samples = 20`, reward
`coh>=0.88 and mir<=0.35`, penalty `coh<0.55 or mir>0.50`, daily caps
`0.04` and `0.02`. -/
def pol₀ : Policy where
  minSamples := 20
  rewardP := fun c m => .ok (decide (c ≥ 22/25 ∧ m ≤ 7/20))
  penaltyP := fun c m => .ok (decide (c < 11/20 ∨ m > 1/2))
  cCall := 1/25
  cSever := 1/50

/-- One telemetry record: in-window, coherence 0.92, mirror residual
0.20, 25 aggregated samples. -/
def rec₀ : TelemetryRec :=
  { ts := some 10, coherence := some (23/25), mirror_residual := some (1/5),
    samples := some 25 }

/-- A low-coherence record driving the penalty branch. -/
def rec₁ : TelemetryRec :=
  { ts := some 10, coherence := some (2/5), mirror_residual := some (1/5),
    samples := some 25 }

/-- A small threshold profile for the evaluator apply step. -/
def prof₀ : List (String × Val) :=
  [("call_harmonizers_below", .num (3/5)), ("early_severance_below", .num (1/4))]

/-- A profile store with one named profile. -/
def store₀ : List (String × Val) := [("default", .obj prof₀)]

/-- A nested threshold document exercising every designated path plus an
untouched entry. -/
def t₀ : List (String × Val) :=
  [("meta_gate", .obj [("coherence", .obj
      [("warn_below", .num (1/2)), ("sever_below", .num (2/5)),
       ("stabilize_above", .num (7/10)), ("note", .str "raw")])]),
   ("gates", .obj [("triggers", .obj
      [("early_severance_below", .num (1/4)),
       ("call_harmonizers_below", .num (3/5))])]),
   ("other", .str "keep")]

/-- A concrete lunar payload (Full Moon levers). -/
def payload₀ : LunarPayload :=
  { phaseFraction := 1/2, phaseName := "Full Moon",
    nudges := [("severance", 9/10), ("harmonizers", 11/10),
               ("coherence", 1), ("call_harmonizers_bias", 28/25)] }

/-- An enabled lunar config without a `caps` entry. -/
def cfg₀ : LunarCfg :=
  { enabled := true, capsMin := none, capsMax := none, capsPresent := false }

/-! ## Basic lemmas: phase oracle -/

theorem phaseIdx_nonneg (frac : ℚ) : 0 ≤ phaseIdx frac :=
  Int.emod_nonneg _ (by norm_num)

theorem phaseIdx_lt_eight (frac : ℚ) : phaseIdx frac < 8 :=
  Int.emod_lt_of_pos _ (by norm_num)

theorem phase_name_eq_get (frac : ℚ) :
    phase_name frac = PHASE_NAMES.get? (phaseIdx frac).toNat := by
  unfold phase_name pyIndex
  rw [if_pos (phaseIdx_nonneg frac)]

theorem phase_name_isSome (frac : ℚ) : (phase_name frac).isSome := by
  rw [phase_name_eq_get]
  have h8 := phaseIdx_lt_eight frac
  have h0 := phaseIdx_nonneg frac
  have hn : (phaseIdx frac).toNat < 8 := by omega
  have hall : ∀ n, n < 8 → (PHASE_NAMES.get? n).isSome := by decide
  exact hall _ hn

theorem phase_fraction_eq_fract (s : ℚ) :
    phase_fraction s = Int.fract (s / 86400 / SYNODIC) := by
  unfold phase_fraction pyFMod Int.fract
  have hS : (SYNODIC:ℚ) ≠ 0 := by norm_num [SYNODIC]
  field_simp
  ring

theorem phase_fraction_nonneg (s : ℚ) : 0 ≤ phase_fraction s := by
  rw [phase_fraction_eq_fract]; exact Int.fract_nonneg _

theorem phase_fraction_lt_one (s : ℚ) : phase_fraction s < 1 := by
  rw [phase_fraction_eq_fract]; exact Int.fract_lt_one _

/-! ## Basic lemmas: dicts -/

theorem dLookup_dSet_self (l : List (String × Val)) (k : String) (v : Val) :
    dLookup (dSet l k v) k = some v := by
  induction l with
  | nil => simp [dSet, dLookup]
  | cons hd tl ih =>
    by_cases h : hd.1 = k
    · simp [dSet, dLookup, h]
    · have hb : (hd.1 == k) = false := by simpa using h
      cases hd with
      | mk k' v' => simp_all [dSet, dLookup]

theorem dLookup_dSet_ne (l : List (String × Val)) (k k' : String) (v : Val)
    (h : k' ≠ k) : dLookup (dSet l k v) k' = dLookup l k' := by
  induction l with
  | nil =>
    have hb : (k == k') = false := by simpa using (Ne.symm h)
    simp [dSet, dLookup, hb]
  | cons hd tl ih =>
    cases hd with
    | mk a b =>
      by_cases ha : a = k
      · have hb : (k == k') = false := by simpa using (Ne.symm h)
        simp [dSet, dLookup, ha, hb]
      · have hb : (a == k) = false := by simpa using ha
        simp only [dSet, hb]
        by_cases hc : a = k'
        · simp [dLookup, hc]
        · have hbc : (a == k') = false := by simpa using hc
          simp [dLookup, hbc, ih]

theorem dSet_self (l : List (String × Val)) (k : String) (v : Val)
    (h : dLookup l k = some v) : dSet l k v = l := by
  induction l with
  | nil => simp [dLookup] at h
  | cons hd tl ih =>
    cases hd with
    | mk a b =>
      by_cases ha : a = k
      · subst ha
        simp only [dLookup, beq_self_eq_true, if_pos] at h
        obtain rfl : b = v := by simpa using h
        simp [dSet]
      · have hb : (a == k) = false := by simpa using ha
        simp only [dLookup, hb] at h
        simp [dSet, hb, ih h]

/-! ## Basic lemmas: clamps and rounding -/

theorem pyClamp_mem (x lo hi : ℚ) (h : lo ≤ hi) :
    lo ≤ pyClamp x lo hi ∧ pyClamp x lo hi ≤ hi := by
  unfold pyClamp
  split
  · exact ⟨h, le_refl _⟩
  · split
    · exact ⟨le_refl _, h⟩
    · rename_i h1 h2
      push_neg at h1 h2
      exact ⟨h2, h1⟩

theorem maxMinClamp_mem (x lo hi : ℚ) (h : lo ≤ hi) :
    lo ≤ max lo (min hi x) ∧ max lo (min hi x) ≤ hi := by
  refine ⟨le_max_left _ _, ?_⟩
  exact max_le h (min_le_left _ _)

theorem roundHalfEven_le (x : ℚ) (b : ℤ) (h : x ≤ b) : roundHalfEven x ≤ b := by
  have hfl : (⌊x⌋ : ℤ) ≤ b := by
    have := Int.floor_le_floor h
    simpa using this
  unfold roundHalfEven
  split
  · exact hfl
  · rename_i h1
    split
    · rename_i h2
      have hx : (⌊x⌋ : ℚ) + 1/2 < x := by
        have := Int.self_sub_floor x ▸ h2
        unfold Int.fract at h2
        linarith
      have : (⌊x⌋ : ℚ) < (b : ℚ) - 1/2 := by linarith
      have hlt : ⌊x⌋ < b := by
        by_contra hc
        push_neg at hc
        have : (b : ℚ) ≤ (⌊x⌋ : ℚ) := by exact_mod_cast hc
        linarith
      omega
    · rename_i h2
      have heq : Int.fract x = 1/2 := le_antisymm (le_of_not_lt h2) (le_of_not_lt h1)
      have hx : x = (⌊x⌋ : ℚ) + 1/2 := by
        unfold Int.fract at heq
        linarith
      have : (⌊x⌋ : ℚ) + 1/2 ≤ (b : ℚ) := by rw [← hx]; exact_mod_cast h
      have hlt : ⌊x⌋ < b := by
        by_contra hc
        push_neg at hc
        have : (b : ℚ) ≤ (⌊x⌋ : ℚ) := by exact_mod_cast hc
        linarith
      split <;> omega

theorem roundHalfEven_ge (x : ℚ) (a : ℤ) (h : (a : ℚ) ≤ x) : a ≤ roundHalfEven x := by
  have hfl : a ≤ ⌊x⌋ := Int.le_floor.mpr h
  unfold roundHalfEven
  split
  · exact hfl
  · split
    · omega
    · split <;> omega

theorem round4_bounds (y : ℚ) (a b : ℤ) (ha : (a : ℚ)/10000 ≤ y)
    (hb : y ≤ (b : ℚ)/10000) : (a : ℚ)/10000 ≤ round4 y ∧ round4 y ≤ (b : ℚ)/10000 := by
  have ha' : (a : ℚ) ≤ y * 10000 := by linarith
  have hb' : y * 10000 ≤ (b : ℚ) := by linarith
  have h1 := roundHalfEven_ge (y * 10000) a ha'
  have h2 := roundHalfEven_le (y * 10000) b hb'
  unfold round4
  constructor
  · have : (a : ℚ) ≤ (roundHalfEven (y * 10000) : ℚ) := by exact_mod_cast h1
    linarith
  · have : ((roundHalfEven (y * 10000) : ℤ) : ℚ) ≤ (b : ℚ) := by exact_mod_cast h2
    linarith

theorem phase_fraction_zero : phase_fraction 0 = 0 := by
  norm_num [phase_fraction, pyFMod, SYNODIC]

theorem phase_name_zero : phase_name 0 = some "New Moon" := by
  have h12 : ⌊(0:ℚ) * 8 + 1/2⌋ = 0 := by
    rw [show (0:ℚ) * 8 + 1/2 = 1/2 by norm_num, Int.floor_eq_iff]
    norm_num
  unfold phase_name phaseIdx pyAnd7 pyTrunc
  rw [if_pos (by norm_num : (0:ℚ) ≤ 0 * 8 + 1/2), h12]
  rfl

/-! ## Claim C10 -/

/-- Claim C10: `phase_name` is total over every finite input fraction,
not only over `[0,1)`: for any rational fraction, including values `≥ 1`
or `< 0`, the computed bin index `int(frac * 8.0 + 0.5) & 7` lies in
`{0,...,7}`, and indexing returns one of the 8 fixed phase names — no
index error is possible. -/
theorem C10_phase_name_total (frac : ℚ) :
    0 ≤ phaseIdx frac ∧ phaseIdx frac < 8 ∧
    ∃ s, phase_name frac = some s ∧ s ∈ PHASE_NAMES := by
  refine ⟨phaseIdx_nonneg frac, phaseIdx_lt_eight frac, ?_⟩
  have h := phase_name_isSome frac
  rcases Option.isSome_iff_exists.mp h with ⟨s, hs⟩
  refine ⟨s, hs, ?_⟩
  rw [phase_name_eq_get] at hs
  exact List.get?_mem hs

/-! ## Claim C7 -/

/-- Claim C7: `phase_fraction` always lies in `[0,1)`; `phase_name`
agrees with nearest-of-8 binning `round(fraction*8) mod 8` (ties to the
higher bin) on nonnegative fractions; the reference epoch (elapsed
seconds 0) yields fraction 0 and "New Moon"; and fractions just below 1
wrap to "New Moon" rather than an out-of-range index. -/
theorem C7_phase_contract :
    (∀ s : ℚ, 0 ≤ phase_fraction s ∧ phase_fraction s < 1) ∧
    (∀ f : ℚ, 0 ≤ f → phase_name f = phase_name_spec f) ∧
    phase_fraction 0 = 0 ∧
    phase_name 0 = some "New Moon" ∧
    (∀ f : ℚ, 15/16 ≤ f → f < 1 → phase_name f = some "New Moon") := by
  refine ⟨fun s => ⟨phase_fraction_nonneg s, phase_fraction_lt_one s⟩, ?_, ?_, ?_, ?_⟩
  · intro f hf
    unfold phase_name phase_name_spec phaseIdx pyAnd7 pyTrunc
    have h0 : (0:ℚ) ≤ f * 8 + 1/2 := by linarith
    rw [if_pos h0]
  · norm_num [phase_fraction, pyFMod, SYNODIC]
  · exact phase_name_zero
  · intro f h1 h2
    have h0 : (0:ℚ) ≤ f * 8 + 1/2 := by linarith
    have hfl : ⌊f * 8 + 1/2⌋ = 8 := by
      rw [Int.floor_eq_iff]
      push_cast
      constructor <;> linarith
    unfold phase_name phaseIdx pyAnd7 pyTrunc
    rw [if_pos h0, hfl]
    rfl

/-- Closed instance of C7: range at a concrete timestamp, agreement with
the spec binning at fraction 1/2, and wraparound at fraction 0.999. -/
theorem C7_phase_contract_witness :
    (0 ≤ phase_fraction 12345 ∧ phase_fraction 12345 < 1) ∧
    phase_name (1/2) = phase_name_spec (1/2) ∧
    phase_name (999/1000) = some "New Moon" :=
  ⟨C7_phase_contract.1 12345,
   C7_phase_contract.2.1 (1/2) (by norm_num),
   C7_phase_contract.2.2.2.2 (999/1000) (by norm_num) (by norm_num)⟩

/-! ## Claim C4 -/

theorem compute_lunar_nudges_shape (cfg : LunarCfg) (s : ℚ) (p : LunarPayload)
    (h : compute_lunar_nudges (some cfg) s = some p) :
    ∀ kv ∈ p.nudges, ∃ v0 : ℚ,
      kv.2 = max (resolvedMin cfg) (min (resolvedMax cfg) v0) := by
  rcases hnm : phase_name (phase_fraction s) with _ | nm
  · have := phase_name_isSome (phase_fraction s)
    rw [hnm] at this
    simp at this
  · simp only [compute_lunar_nudges] at h
    rcases he : cfg.enabled with _ | _
    · rw [he] at h
      simp at h
    · rw [he] at h
      simp only [Bool.not_true, Bool.false_eq_true, if_false] at h
      rw [show compute_nudges (phase_fraction s) none = some (nudges_for nm) by
        simp [compute_nudges, hnm]] at h
      rw [hnm] at h
      simp only [Option.some.injEq] at h
      subst h
      intro kv hkv
      simp only [List.mem_map] at hkv
      obtain ⟨kv0, _, hkv0⟩ := hkv
      exact ⟨kv0.2, by rw [← hkv0]⟩

/-- Claim C4: every lever multiplier produced by the lunar-nudge
pipeline is clamped before use: `compute_nudges` with explicit caps
`(lo, hi)` clamps every value into `[lo, hi]`, and `compute_lunar_nudges`
clamps every value into the configured `[mn, mx]`, which defaults to
`[0.85, 1.15]` when no `caps` entry is supplied. -/
theorem C4_nudge_caps :
    (∀ (frac lo hi : ℚ) (n' : List (String × ℚ)), lo ≤ hi →
      compute_nudges frac (some (lo, hi)) = some n' →
      ∀ kv ∈ n', lo ≤ kv.2 ∧ kv.2 ≤ hi) ∧
    (∀ (cfg : LunarCfg) (s : ℚ) (p : LunarPayload),
      compute_lunar_nudges (some cfg) s = some p →
      resolvedMin cfg ≤ resolvedMax cfg →
      ∀ kv ∈ p.nudges, resolvedMin cfg ≤ kv.2 ∧ kv.2 ≤ resolvedMax cfg) ∧
    (∀ (cfg : LunarCfg) (s : ℚ) (p : LunarPayload),
      compute_lunar_nudges (some cfg) s = some p → cfg.capsPresent = false →
      ∀ kv ∈ p.nudges, 17/20 ≤ kv.2 ∧ kv.2 ≤ 23/20) := by
  refine ⟨?_, ?_, ?_⟩
  · intro frac lo hi n' hlh h kv hkv
    rcases hnm : phase_name frac with _ | nm
    · rw [compute_nudges, hnm] at h
      simp at h
    · rw [compute_nudges, hnm] at h
      simp only [Option.map_some', Option.some.injEq] at h
      subst h
      simp only [List.mem_map] at hkv
      obtain ⟨kv0, _, hkv0⟩ := hkv
      rw [← hkv0]
      exact pyClamp_mem kv0.2 lo hi hlh
  · intro cfg s p h hmm kv hkv
    obtain ⟨v0, hv0⟩ := compute_lunar_nudges_shape cfg s p h kv hkv
    rw [hv0]
    exact maxMinClamp_mem v0 _ _ hmm
  · intro cfg s p h hcaps kv hkv
    obtain ⟨v0, hv0⟩ := compute_lunar_nudges_shape cfg s p h kv hkv
    rw [hv0]
    have h1 : resolvedMin cfg = 17/20 := by simp [resolvedMin, hcaps]
    have h2 : resolvedMax cfg = 23/20 := by simp [resolvedMax, hcaps]
    rw [h1, h2]
    exact maxMinClamp_mem v0 _ _ (by norm_num)

/-- Closed instance of C4: the default New Moon nudges under caps
`(0.9, 1.1)`, and the `compute_lunar_nudges` payload of `cfg₀` under the
default bounds. -/
theorem C4_nudge_caps_witness :
    (∀ kv ∈ (nudges_for "New Moon").map
        (fun kv => (kv.1, pyClamp kv.2 (9/10) (11/10))),
      9/10 ≤ kv.2 ∧ kv.2 ≤ 11/10) ∧
    (∀ kv ∈ ((nudges_for "New Moon").map
        (fun kv => (kv.1, max (17/20) (min (23/20) kv.2)))),
      17/20 ≤ kv.2 ∧ kv.2 ≤ 23/20) := by
  constructor
  · exact C4_nudge_caps.1 0 (9/10) (11/10) _ (by norm_num)
      (by rw [compute_nudges, phase_name_zero]; rfl)
  · exact C4_nudge_caps.2.2 cfg₀ 0 ⟨phase_fraction 0, "New Moon",
      (nudges_for "New Moon").map (fun kv => (kv.1, max (17/20) (min (23/20) kv.2)))⟩
      (by
        simp only [compute_lunar_nudges, cfg₀, Bool.not_true, Bool.false_eq_true, if_false]
        rw [show compute_nudges (phase_fraction 0) none = some (nudges_for "New Moon") by
          rw [compute_nudges, phase_fraction_zero, phase_name_zero]; rfl]
        rw [phase_fraction_zero, phase_name_zero]
        simp [resolvedMin, resolvedMax]) rfl

/-! ## Decision and proposal lemmas -/

theorem decision_insufficient_iff (pol : Policy) (coh mir : Option ℚ) (n : ℚ) :
    decision pol coh mir n = .insufficient ↔
      coh = none ∨ mir = none ∨ n < pol.minSamples := by
  cases coh with
  | none => simp [decision]
  | some c =>
    cases mir with
    | none => simp [decision]
    | some m =>
      simp only [decision, reduceCtorEq, false_or]
      by_cases hn : n < pol.minSamples
      · simp [hn]
      · simp only [hn, if_false, iff_false]
        rcases hR : pol.rewardP c m with e | b
        · simp
        · cases b
          · rcases hP : pol.penaltyP c m with e | b2
            · simp
            · cases b2 <;> simp
          · simp

theorem decision_of_avgs (pol : Policy) (c m : ℚ) (n : ℚ)
    (hn : ¬ n < pol.minSamples) :
    decision pol (some c) (some m) n =
      (match pol.rewardP c m with
       | .error _ => .neutral
       | .ok true => .reward
       | .ok false =>
         match pol.penaltyP c m with
         | .error _ => .neutral
         | .ok true => .penalty
         | .ok false => .neutral) := by
  simp [decision, hn]

/-! ## Fixture evaluation lemmas -/

theorem fixture_cohAvg : (runEval pol₀ [rec₀] 0 true store₀).cohAvg = some (23/25) := by
  show avg [(23:ℚ)/25] = some (23/25)
  rw [avg]
  norm_num

theorem fixture_mirAvg : (runEval pol₀ [rec₀] 0 true store₀).mirAvg = some (1/5) := by
  show avg [(1:ℚ)/5] = some (1/5)
  rw [avg]
  norm_num

theorem fixture_sampleSum : (runEval pol₀ [rec₀] 0 true store₀).sampleSum = 25 := by
  show (25:ℚ) + 0 = 25
  norm_num

theorem fixture_rewardP : pol₀.rewardP (23/25) (1/5) = .ok true := by
  show Except.ok (decide ((23:ℚ)/25 ≥ 22/25 ∧ (1:ℚ)/5 ≤ 7/20)) = .ok true
  simp only [Except.ok.injEq, decide_eq_true_eq, ge_iff_le]
  norm_num

theorem fixture_verdict_reward :
    (runEval pol₀ [rec₀] 0 true store₀).verdict = .reward := by
  have hv : (runEval pol₀ [rec₀] 0 true store₀).verdict =
      decision pol₀ (runEval pol₀ [rec₀] 0 true store₀).cohAvg
        (runEval pol₀ [rec₀] 0 true store₀).mirAvg
        (runEval pol₀ [rec₀] 0 true store₀).sampleSum := rfl
  rw [hv, fixture_cohAvg, fixture_mirAvg, fixture_sampleSum,
    decision_of_avgs pol₀ _ _ 25 (by norm_num [pol₀]), fixture_rewardP]

/-! ## Claim C1 -/

/-- Claim C1: the verdict of an evaluator run is `insufficient` iff an
average is undefined or the sample sum is below `min_samples`; otherwise
the reward predicate decides `reward`, else the penalty predicate decides
`penalty`, else `neutral`; and a predicate evaluation error yields
`neutral` instead of aborting. -/
theorem C1_verdict_rule (pol : Policy) (telem : List TelemetryRec) (tcut : ℚ)
    (flag : Bool) (profiles : List (String × Val)) (r : RunResult)
    (hr : r = runEval pol telem tcut flag profiles) :
    (r.verdict = .insufficient ↔
      r.cohAvg = none ∨ r.mirAvg = none ∨ r.sampleSum < pol.minSamples) ∧
    (∀ c m, r.cohAvg = some c → r.mirAvg = some m →
      ¬ r.sampleSum < pol.minSamples →
      (pol.rewardP c m = .ok true → r.verdict = .reward) ∧
      (pol.rewardP c m = .error () → r.verdict = .neutral) ∧
      (pol.rewardP c m = .ok false → pol.penaltyP c m = .ok true →
        r.verdict = .penalty) ∧
      (pol.rewardP c m = .ok false → pol.penaltyP c m = .ok false →
        r.verdict = .neutral) ∧
      (pol.rewardP c m = .ok false → pol.penaltyP c m = .error () →
        r.verdict = .neutral)) := by
  subst hr
  have hv : (runEval pol telem tcut flag profiles).verdict =
      decision pol (runEval pol telem tcut flag profiles).cohAvg
        (runEval pol telem tcut flag profiles).mirAvg
        (runEval pol telem tcut flag profiles).sampleSum := rfl
  constructor
  · rw [hv]
    exact decision_insufficient_iff pol _ _ _
  · intro c m hc hm hn
    rw [hv, hc, hm]
    rw [decision_of_avgs pol c m _ hn]
    refine ⟨fun h => by rw [h], fun h => by rw [h], fun h1 h2 => by rw [h1, h2],
      fun h1 h2 => by rw [h1, h2], fun h1 h2 => by rw [h1, h2]⟩

/-- Closed instance of C1: a 25-sample window with coherence 0.92 and
mirror residual 0.20 under the default policy yields verdict `reward`. -/
theorem C1_verdict_rule_witness :
    (runEval pol₀ [rec₀] 0 true store₀).verdict = .reward := by
  have hn : ¬ (runEval pol₀ [rec₀] 0 true store₀).sampleSum < pol₀.minSamples := by
    rw [fixture_sampleSum]
    norm_num [pol₀]
  exact ((C1_verdict_rule pol₀ [rec₀] 0 true store₀ _ rfl).2 (23/25) (1/5)
    fixture_cohAvg fixture_mirAvg hn).1 fixture_rewardP

/-! ## Claim C2 -/

theorem proposalsFor_spec (v : Verdict) (cCall cSever : ℚ) :
    (v = .reward → proposalsFor v cCall cSever =
      [⟨"thresholds.gates.profiles.*.call_harmonizers_below", -(min (1/50) cCall)⟩,
       ⟨"thresholds.gates.profiles.*.early_severance_below", min (1/100) cSever⟩]) ∧
    (v = .penalty → proposalsFor v cCall cSever =
      [⟨"thresholds.gates.profiles.*.call_harmonizers_below", min (1/50) cCall⟩,
       ⟨"thresholds.gates.profiles.*.early_severance_below", -(min (1/100) cSever)⟩]) ∧
    (proposalsFor v cCall cSever = [] ↔ v = .insufficient ∨ v = .neutral) := by
  cases v <;> simp [proposalsFor]

/-- Claim C2: on `reward` exactly the two deltas
`(call_harmonizers_below, −min(0.02, cap))` and
`(early_severance_below, +min(0.01, cap))` are proposed; on `penalty` the
signs invert; the delta list is empty iff the verdict is `insufficient`
or `neutral`; and (for nonnegative configured caps) no proposed delta
magnitude exceeds the per-key daily cap. -/
theorem C2_proposal_rule (pol : Policy) (telem : List TelemetryRec) (tcut : ℚ)
    (flag : Bool) (profiles : List (String × Val)) (r : RunResult)
    (hr : r = runEval pol telem tcut flag profiles) :
    (r.verdict = .reward → r.proposals =
      [⟨"thresholds.gates.profiles.*.call_harmonizers_below", -(min (1/50) pol.cCall)⟩,
       ⟨"thresholds.gates.profiles.*.early_severance_below", min (1/100) pol.cSever⟩]) ∧
    (r.verdict = .penalty → r.proposals =
      [⟨"thresholds.gates.profiles.*.call_harmonizers_below", min (1/50) pol.cCall⟩,
       ⟨"thresholds.gates.profiles.*.early_severance_below", -(min (1/100) pol.cSever)⟩]) ∧
    (r.proposals = [] ↔ r.verdict = .insufficient ∨ r.verdict = .neutral) ∧
    (0 ≤ pol.cCall → 0 ≤ pol.cSever → ∀ pr ∈ r.proposals,
      |pr.delta| ≤ (if lastComp pr.path = "call_harmonizers_below"
        then pol.cCall else pol.cSever)) := by
  subst hr
  have hp : (runEval pol telem tcut flag profiles).proposals =
      proposalsFor (runEval pol telem tcut flag profiles).verdict
        pol.cCall pol.cSever := rfl
  rw [hp]
  refine ⟨(proposalsFor_spec _ _ _).1, (proposalsFor_spec _ _ _).2.1,
    (proposalsFor_spec _ _ _).2.2, ?_⟩
  intro hcc hcs pr hpr
  have habs1 : |(-(min (1/50) pol.cCall))| ≤ pol.cCall := by
    rw [abs_neg, abs_of_nonneg (le_min (by norm_num) hcc)]
    exact min_le_right _ _
  have habs2 : |min (1/100) pol.cSever| ≤ pol.cSever := by
    rw [abs_of_nonneg (le_min (by norm_num) hcs)]
    exact min_le_right _ _
  have habs3 : |min (1/50) pol.cCall| ≤ pol.cCall := by
    rw [abs_of_nonneg (le_min (by norm_num) hcc)]
    exact min_le_right _ _
  have habs4 : |(-(min (1/100) pol.cSever))| ≤ pol.cSever := by
    rw [abs_neg, abs_of_nonneg (le_min (by norm_num) hcs)]
    exact min_le_right _ _
  have hlast1 : lastComp "thresholds.gates.profiles.*.call_harmonizers_below" =
      "call_harmonizers_below" := by decide
  have hlast2 : lastComp "thresholds.gates.profiles.*.early_severance_below" =
      "early_severance_below" := by decide
  rcases hverdict : (runEval pol telem tcut flag profiles).verdict
  case insufficient =>
    rw [hverdict] at hpr
    simp [proposalsFor] at hpr
  case neutral =>
    rw [hverdict] at hpr
    simp [proposalsFor] at hpr
  case reward =>
    rw [hverdict] at hpr
    simp only [proposalsFor, List.mem_cons, List.not_mem_nil, or_false] at hpr
    rcases hpr with rfl | rfl
    · simpa [hlast1] using habs1
    · simpa [hlast2] using habs2
  case penalty =>
    rw [hverdict] at hpr
    simp only [proposalsFor, List.mem_cons, List.not_mem_nil, or_false] at hpr
    rcases hpr with rfl | rfl
    · simpa [hlast1] using habs3
    · simpa [hlast2] using habs4

/-- Closed instance of C2: under the default policy a reward run
proposes exactly the two signed deltas. -/
theorem C2_proposal_rule_witness :
    (runEval pol₀ [rec₀] 0 true store₀).proposals =
      [⟨"thresholds.gates.profiles.*.call_harmonizers_below", -(min (1/50) (1/25))⟩,
       ⟨"thresholds.gates.profiles.*.early_severance_below", min (1/100) (1/50)⟩] := by
  exact (C2_proposal_rule pol₀ [rec₀] 0 true store₀ _ rfl).1 fixture_verdict_reward

/-! ## Claim C5 (corrected) -/

/-- Counterexample to C5 as stated: with apply authorization granted but
an empty telemetry window, the verdict is `insufficient` and nothing is
committed, yet the durable patch record's apply-related field
(`"apply": bool(APPLY)`, line 100 of the source) reads `true`. The
record therefore does not carry `applied=true iff committed`; the
committed-iff flag is only appended to the learning log. -/
theorem C5_applied_flag_cex :
    (runEval pol₀ [] 0 true store₀).patchApply = true ∧
    (runEval pol₀ [] 0 true store₀).verdict = .insufficient ∧
    (runEval pol₀ [] 0 true store₀).applied = false ∧
    (runEval pol₀ [] 0 true store₀).newProfiles = none :=
  ⟨rfl, rfl, rfl, rfl⟩

/-- Claim C5 as amended: the patch record's `apply` field equals the
authorization flag regardless of commit; the `applied` flag written to
the learning log is true iff apply was authorized and the proposal list
is non-empty, which also coincides with an updated profile store being
written; in particular an `insufficient` verdict always yields
`applied=false`. -/
theorem C5_applied_flag_spec (pol : Policy) (telem : List TelemetryRec)
    (tcut : ℚ) (flag : Bool) (profiles : List (String × Val)) (r : RunResult)
    (hr : r = runEval pol telem tcut flag profiles) :
    r.patchApply = flag ∧
    (r.applied = true ↔ flag = true ∧ r.proposals ≠ []) ∧
    (r.applied = true ↔ r.newProfiles.isSome) ∧
    (r.verdict = .insufficient → r.applied = false) := by
  subst hr
  have hp : (runEval pol telem tcut flag profiles).proposals =
      proposalsFor (runEval pol telem tcut flag profiles).verdict
        pol.cCall pol.cSever := rfl
  have ha : (runEval pol telem tcut flag profiles).applied =
      (flag && !(runEval pol telem tcut flag profiles).proposals.isEmpty) := rfl
  have hnp : (runEval pol telem tcut flag profiles).newProfiles =
      (if (flag && !(runEval pol telem tcut flag profiles).proposals.isEmpty)
        then some (applyProposalsToStore
          (runEval pol telem tcut flag profiles).proposals profiles)
        else none) := rfl
  refine ⟨rfl, ?_, ?_, ?_⟩
  · rw [ha]
    simp [List.isEmpty_iff]
  · rw [ha, hnp]
    rcases hb : (flag && !(runEval pol telem tcut flag profiles).proposals.isEmpty) with _ | _
    · simp
    · simp
  · intro hv
    have hempty : (runEval pol telem tcut flag profiles).proposals = [] := by
      rw [hp, hv]
      rfl
    rw [ha, hempty]
    simp

/-- Closed instance of the amended C5 at a reward run with authorization
granted. -/
theorem C5_applied_flag_spec_witness :
    (runEval pol₀ [rec₀] 0 true store₀).applied = true ↔
      true = true ∧ (runEval pol₀ [rec₀] 0 true store₀).proposals ≠ [] :=
  (C5_applied_flag_spec pol₀ [rec₀] 0 true store₀ _ rfl).2.1

/-! ## Claim C6 (corrected) -/

/-- Counterexample to C6 as stated: a missing telemetry log is not
fatal — `read_jsonl` returns `[]` for a missing file (line 24), the run
completes with verdict `insufficient`, and the patch and log are still
written. -/
theorem C6_missing_telemetry_cex :
    mainRun (some pol₀) none 0 true store₀ =
      .ok (runEval pol₀ [] 0 true store₀) ∧
    (runEval pol₀ [] 0 true store₀).verdict = .insufficient ∧
    (runEval pol₀ [] 0 true store₀).proposals = [] :=
  ⟨rfl, rfl, rfl⟩

/-- Claim C6 as amended: a missing tuning-policy file is fatal before
any output is produced (`load_yaml` raises on the missing path), while a
missing telemetry log is treated as an empty record set, so both
averages are undefined, the verdict is `insufficient`, no deltas are
proposed and nothing is applied. -/
theorem C6_load_failure_spec :
    (∀ (t : Option (List TelemetryRec)) (tcut : ℚ) (flag : Bool)
      (profiles : List (String × Val)),
      mainRun none t tcut flag profiles = .error .policyMissing) ∧
    (∀ (pol : Policy) (tcut : ℚ) (flag : Bool)
      (profiles : List (String × Val)),
      mainRun (some pol) none tcut flag profiles =
        .ok (runEval pol [] tcut flag profiles) ∧
      (runEval pol [] tcut flag profiles).cohAvg = none ∧
      (runEval pol [] tcut flag profiles).mirAvg = none ∧
      (runEval pol [] tcut flag profiles).verdict = .insufficient ∧
      (runEval pol [] tcut flag profiles).proposals = [] ∧
      (runEval pol [] tcut flag profiles).applied = false) := by
  constructor
  · intro t tcut flag profiles
    rfl
  · intro pol tcut flag profiles
    refine ⟨rfl, rfl, rfl, rfl, rfl, ?_⟩
    show (flag && !(List.isEmpty _)) = false
    simp [proposalsFor, decision, avg]

/-! ## Claim C3 -/

theorem lastComp_call :
    lastComp "thresholds.gates.profiles.*.call_harmonizers_below" =
      "call_harmonizers_below" := by decide

theorem lastComp_sever :
    lastComp "thresholds.gates.profiles.*.early_severance_below" =
      "early_severance_below" := by decide

theorem round4_clamp_call (x : ℚ) :
    2/5 ≤ round4 (max (2/5) (min (4/5) x)) ∧
      round4 (max (2/5) (min (4/5) x)) ≤ 4/5 := by
  have hm := maxMinClamp_mem x (2/5) (4/5) (by norm_num)
  have h := round4_bounds (max (2/5) (min (4/5) x)) 4000 8000
    (by push_cast; linarith [hm.1]) (by push_cast; linarith [hm.2])
  constructor
  · have := h.1
    push_cast at this
    linarith
  · have := h.2
    push_cast at this
    linarith

theorem round4_clamp_sever (x : ℚ) :
    1/5 ≤ round4 (max (1/5) (min (7/20) x)) ∧
      round4 (max (1/5) (min (7/20) x)) ≤ 7/20 := by
  have hm := maxMinClamp_mem x (1/5) (7/20) (by norm_num)
  have h := round4_bounds (max (1/5) (min (7/20) x)) 2000 3500
    (by push_cast; linarith [hm.1]) (by push_cast; linarith [hm.2])
  constructor
  · have := h.1
    push_cast at this
    linarith
  · have := h.2
    push_cast at this
    linarith

set_option maxHeartbeats 1600000 in
theorem applyProfile_two_eq (δ1 δ2 : ℚ) (prof : List (String × Val)) :
    applyProposalsToProfile
      [⟨"thresholds.gates.profiles.*.call_harmonizers_below", δ1⟩,
       ⟨"thresholds.gates.profiles.*.early_severance_below", δ2⟩] prof =
    severUpdate δ2 prof (callUpdate δ1 prof prof) := rfl

theorem callUpdate_call (δ : ℚ) (prof acc : List (String × Val)) (q : ℚ)
    (h : dLookup (callUpdate δ prof acc) "call_harmonizers_below" =
      some (.num q)) :
    2/5 ≤ q ∧ q ≤ 4/5 ∨ dLookup acc "call_harmonizers_below" = some (.num q) := by
  rcases hcall : dLookup prof "call_harmonizers_below" with _ | (q1 | s1 | f1) <;>
    simp only [callUpdate, hcall, dLookup_dSet_self, Option.some.injEq,
      Val.num.injEq] at h
  · exact Or.inr h
  · left
    rw [← h]
    exact round4_clamp_call _
  · exact Or.inr h
  · exact Or.inr h

theorem severUpdate_sever (δ : ℚ) (prof acc : List (String × Val)) (q : ℚ)
    (h : dLookup (severUpdate δ prof acc) "early_severance_below" =
      some (.num q)) :
    1/5 ≤ q ∧ q ≤ 7/20 ∨ dLookup acc "early_severance_below" = some (.num q) := by
  rcases hsev : dLookup prof "early_severance_below" with _ | (q2 | s2 | f2) <;>
    simp only [severUpdate, hsev, dLookup_dSet_self, Option.some.injEq,
      Val.num.injEq] at h
  · exact Or.inr h
  · left
    rw [← h]
    exact round4_clamp_sever _
  · exact Or.inr h
  · exact Or.inr h

theorem severUpdate_other (δ : ℚ) (prof acc : List (String × Val)) (k : String)
    (hk : k ≠ "early_severance_below") :
    dLookup (severUpdate δ prof acc) k = dLookup acc k := by
  rcases hsev : dLookup prof "early_severance_below" with _ | (q2 | s2 | f2) <;>
    simp only [severUpdate, hsev]
  exact dLookup_dSet_ne acc _ k _ hk

theorem callUpdate_other (δ : ℚ) (prof acc : List (String × Val)) (k : String)
    (hk : k ≠ "call_harmonizers_below") :
    dLookup (callUpdate δ prof acc) k = dLookup acc k := by
  rcases hcall : dLookup prof "call_harmonizers_below" with _ | (q1 | s1 | f1) <;>
    simp only [callUpdate, hcall]
  exact dLookup_dSet_ne acc _ k _ hk

theorem applyProfile_two (δ1 δ2 : ℚ) (prof : List (String × Val)) :
    (∀ q, dLookup (applyProposalsToProfile
        [⟨"thresholds.gates.profiles.*.call_harmonizers_below", δ1⟩,
         ⟨"thresholds.gates.profiles.*.early_severance_below", δ2⟩] prof)
        "call_harmonizers_below" = some (.num q) → 2/5 ≤ q ∧ q ≤ 4/5) ∧
    (∀ q, dLookup (applyProposalsToProfile
        [⟨"thresholds.gates.profiles.*.call_harmonizers_below", δ1⟩,
         ⟨"thresholds.gates.profiles.*.early_severance_below", δ2⟩] prof)
        "early_severance_below" = some (.num q) → 1/5 ≤ q ∧ q ≤ 7/20) := by
  constructor
  · intro q hq
    rw [applyProfile_two_eq] at hq
    rw [severUpdate_other δ2 prof _ _ (by decide)] at hq
    rcases callUpdate_call δ1 prof prof q hq with h | h
    · exact h
    · -- the call key was updated from a numeric old value whenever it is
      -- numeric in the result: the fallback branch implies the original
      -- value was numeric, in which case `callUpdate` rewrote it
      rcases hcall : dLookup prof "call_harmonizers_below" with _ | (q1 | s1 | f1) <;>
        rw [hcall] at h
      · exact absurd h (by simp)
      · -- original numeric: then callUpdate wrote the clamped value, so
        -- the fallback lookup cannot be the untouched original unless the
        -- written value equals it; read the bound off the update instead
        have : dLookup (callUpdate δ1 prof prof) "call_harmonizers_below" =
            some (.num (round4 (max (2/5) (min (4/5) (q1 + δ1))))) := by
          simp only [callUpdate, hcall, dLookup_dSet_self]
        rw [this] at hq
        obtain rfl : round4 (max (2/5) (min (4/5) (q1 + δ1))) = q := by
          simpa using hq
        exact round4_clamp_call _
      · exact absurd h (by simp)
      · exact absurd h (by simp)
  · intro q hq
    rw [applyProfile_two_eq] at hq
    rcases severUpdate_sever δ2 prof _ q hq with h | h
    · exact h
    · rw [callUpdate_other δ1 prof prof _ (by decide)] at h
      rcases hsev : dLookup prof "early_severance_below" with _ | (q2 | s2 | f2) <;>
        rw [hsev] at h
      · exact absurd h (by simp)
      · have : dLookup (severUpdate δ2 prof (callUpdate δ1 prof prof))
            "early_severance_below" =
            some (.num (round4 (max (1/5) (min (7/20) (q2 + δ2))))) := by
          simp only [severUpdate, hsev, dLookup_dSet_self]
        rw [this] at hq
        obtain rfl : round4 (max (1/5) (min (7/20) (q2 + δ2))) = q := by
          simpa using hq
        exact round4_clamp_sever _
      · exact absurd h (by simp)
      · exact absurd h (by simp)

theorem applyProfile_ranges (v : Verdict) (hv : v = .reward ∨ v = .penalty)
    (cCall cSever : ℚ) (prof : List (String × Val)) :
    (∀ q, dLookup (applyProposalsToProfile (proposalsFor v cCall cSever) prof)
        "call_harmonizers_below" = some (.num q) → 2/5 ≤ q ∧ q ≤ 4/5) ∧
    (∀ q, dLookup (applyProposalsToProfile (proposalsFor v cCall cSever) prof)
        "early_severance_below" = some (.num q) → 1/5 ≤ q ∧ q ≤ 7/20) := by
  rcases hv with rfl | rfl
  · exact applyProfile_two (-(min (1/50) cCall)) (min (1/100) cSever) prof
  · exact applyProfile_two (min (1/50) cCall) (-(min (1/100) cSever)) prof

/-- Claim C3: when apply authorization is granted and deltas are
non-empty (verdict `reward` or `penalty`), every updated threshold is
`round(clamp(old + delta, floor, ceiling), 4)` with
`call_harmonizers_below` clamped to `[0.40, 0.80]` and
`early_severance_below` clamped to `[0.20, 0.35]`; hence after the apply
step every numeric value under those keys, in every named profile of the
store, lies in its fixed admissible range, regardless of the daily
caps. -/
theorem C3_apply_admissible_range (v : Verdict)
    (hv : v = .reward ∨ v = .penalty) (cCall cSever : ℚ)
    (profiles : List (String × Val)) :
    ∀ nv ∈ applyProposalsToStore (proposalsFor v cCall cSever) profiles,
      ∀ prof, nv.2 = .obj prof →
        (∀ q, dLookup prof "call_harmonizers_below" = some (.num q) →
          2/5 ≤ q ∧ q ≤ 4/5) ∧
        (∀ q, dLookup prof "early_severance_below" = some (.num q) →
          1/5 ≤ q ∧ q ≤ 7/20) := by
  intro nv hnv prof hprof
  simp only [applyProposalsToStore, List.mem_map] at hnv
  obtain ⟨nv0, _, hmap⟩ := hnv
  rcases h0 : nv0.2 with q0 | s0 | p0 <;> rw [h0] at hmap <;> rw [← hmap] at hprof
  · simp at hprof
  · simp at hprof
  · obtain rfl : applyProposalsToProfile (proposalsFor v cCall cSever) p0 = prof := by
      simpa using hprof
    exact applyProfile_ranges v hv cCall cSever p0

/-- Closed instance of C3: applying a reward proposal to the fixture
store keeps both thresholds inside their admissible ranges. -/
theorem C3_apply_admissible_range_witness :
    2/5 ≤ round4 (max (2/5) (min (4/5) ((3:ℚ)/5 + -(min (1/50) (1/25))))) ∧
    round4 (max (2/5) (min (4/5) ((3:ℚ)/5 + -(min (1/50) (1/25))))) ≤ 4/5 := by
  have hmem : ("default", Val.obj (applyProposalsToProfile
      (proposalsFor .reward (1/25) (1/50)) prof₀)) ∈
      applyProposalsToStore (proposalsFor .reward (1/25) (1/50)) store₀ := by
    rw [show applyProposalsToStore (proposalsFor .reward (1/25) (1/50)) store₀ =
      [("default", Val.obj (applyProposalsToProfile
        (proposalsFor .reward (1/25) (1/50)) prof₀))] from rfl]
    exact List.mem_singleton.mpr rfl
  exact ((C3_apply_admissible_range .reward (Or.inl rfl) (1/25) (1/50) store₀
    _ hmem _ rfl).1 _ rfl)

/-! ## Lemmas for `apply_lunar_nudges` (claims C8, C9) -/

theorem dGetPath_dSet_ne_head (t : List (String × Val)) (k : String) (v : Val)
    (k' : String) (ps : List String) (h : k' ≠ k) :
    dGetPath (dSet t k v) (k' :: ps) = dGetPath t (k' :: ps) := by
  simp [dGetPath, getPath, dLookup_dSet_ne t k k' v h]

theorem dGetPath_dSet_head (t : List (String × Val)) (k : String) (v : Val)
    (ps : List String) :
    dGetPath (dSet t k v) (k :: ps) = getPath v ps := by
  simp [dGetPath, getPath, dLookup_dSet_self]

theorem dGetPath_cons (t : List (String × Val)) (k : String) (ps : List String) :
    dGetPath t (k :: ps) =
      (match dLookup t k with
       | some v => getPath v ps
       | none => none) := by
  simp [dGetPath, getPath]

theorem coherenceLoop_str (n : List (String × ℚ)) (ks : List String) (s : String)
    (c'' : Val) (h : coherenceLoop n ks (.str s) = .ok c'') : c'' = .str s := by
  induction ks with
  | nil =>
    simp only [coherenceLoop] at h
    exact (Except.ok.injEq _ _ ▸ h).symm ▸ rfl
  | cons k ks ih =>
    simp only [coherenceLoop, pyIn, bind, Except.bind] at h
    rcases hb : pyInStr k s with _ | _ <;> rw [hb] at h
    · simp only [Bool.false_eq_true, if_false] at h
      exact ih h
    · simp only [if_true, pyIdx, bind, Except.bind] at h
      cases h

theorem coherenceLoop_obj (n : List (String × ℚ)) (ks : List String)
    (hnd : ks.Nodup) :
    ∀ fs : List (String × Val), ∃ fs' : List (String × Val),
      coherenceLoop n ks (.obj fs) = .ok (.obj fs') ∧
      ∀ k', dLookup fs' k' =
        if k' ∈ ks then (dLookup fs k').map (fun v => bump n v "coherence")
        else dLookup fs k' := by
  induction ks with
  | nil =>
    intro fs
    exact ⟨fs, rfl, fun k' => by simp⟩
  | cons k ks ih =>
    intro fs
    have hk : k ∉ ks := (List.nodup_cons.mp hnd).1
    have hnd' : ks.Nodup := (List.nodup_cons.mp hnd).2
    rcases hm : dLookup fs k with _ | v
    · have hmem : dMem fs k = false := by simp [dMem, hm]
      obtain ⟨fs', hok, hchar⟩ := ih hnd' fs
      refine ⟨fs', ?_, ?_⟩
      · simp only [coherenceLoop, pyIn, hmem, Bool.false_eq_true, if_false,
          bind, Except.bind]
        exact hok
      · intro k'
        by_cases hkk : k' = k
        · subst hkk
          rw [hchar k']
          simp [hk, hm]
        · rw [hchar k']
          by_cases hin : k' ∈ ks <;> simp [hin, hkk]
    · have hmem : dMem fs k = true := by simp [dMem, hm]
      obtain ⟨fs', hok, hchar⟩ := ih hnd' (dSet fs k (bump n v "coherence"))
      refine ⟨fs', ?_, ?_⟩
      · simp only [coherenceLoop, pyIn, hmem, if_true, pyIdx, hm, pySetIdx,
          bind, Except.bind]
        exact hok
      · intro k'
        by_cases hkk : k' = k
        · subst hkk
          rw [hchar k']
          simp [hk, hm, dLookup_dSet_self]
        · rw [hchar k']
          by_cases hin : k' ∈ ks <;>
            simp [hin, hkk, dLookup_dSet_ne fs k k' _ hkk]

theorem applyCoherence_cases (n : List (String × ℚ)) (t t' : List (String × Val))
    (h : applyCoherence n t = .ok t') :
    (t' = t ∧ ∀ k ∈ bumpKeys, dGetPath t ["meta_gate", "coherence", k] = none) ∨
    (∃ mg cfs fs',
      dLookup t "meta_gate" = some (.obj mg) ∧
      dLookup mg "coherence" = some (.obj cfs) ∧
      t' = dSet t "meta_gate" (.obj (dSet mg "coherence" (.obj fs'))) ∧
      ∀ k', dLookup fs' k' =
        if k' ∈ bumpKeys then (dLookup cfs k').map (fun v => bump n v "coherence")
        else dLookup cfs k') := by
  rcases hmg : dLookup t "meta_gate" with _ | mgVal
  · left
    refine ⟨?_, ?_⟩
    · have := h
      simp only [applyCoherence, hmg, Except.ok.injEq] at this
      exact this.symm
    · intro k _
      simp [dGetPath_cons, hmg]
  · cases mgVal with
    | num q =>
      simp [applyCoherence, hmg, pyIn, bind, Except.bind] at h
    | str s =>
      rcases hb : pyInStr "coherence" s with _ | _
      · left
        refine ⟨?_, ?_⟩
        · have := h
          simp only [applyCoherence, hmg, pyIn, hb, Bool.false_eq_true, if_false,
            bind, Except.bind, Except.ok.injEq] at this
          exact this.symm
        · intro k _
          simp [dGetPath_cons, hmg, getPath]
      · simp [applyCoherence, hmg, pyIn, hb, pyIdx, bind, Except.bind] at h
    | obj mg =>
      rcases hc : dLookup mg "coherence" with _ | c
      · have hmem : dMem mg "coherence" = false := by simp [dMem, hc]
        left
        refine ⟨?_, ?_⟩
        · have := h
          simp only [applyCoherence, hmg, pyIn, hmem, Bool.false_eq_true, if_false,
            bind, Except.bind, Except.ok.injEq] at this
          exact this.symm
        · intro k _
          simp [dGetPath_cons, hmg, getPath, hc]
      · have hmem : dMem mg "coherence" = true := by simp [dMem, hc]
        cases c with
        | num q =>
          have hloop : coherenceLoop n bumpKeys (.num q) = .error () := rfl
          simp [applyCoherence, hmg, pyIn, hmem, pyIdx, hc, hloop, bind,
            Except.bind] at h
        | str s =>
          rcases hloop : coherenceLoop n bumpKeys (.str s) with e | c''
          · simp [applyCoherence, hmg, pyIn, hmem, pyIdx, hc, hloop, bind,
              Except.bind] at h
          · have hcs : c'' = .str s := coherenceLoop_str n bumpKeys s c'' hloop
            subst hcs
            left
            have hmg_set : dSet mg "coherence" (Val.str s) = mg := dSet_self mg _ _ hc
            have ht_set : dSet t "meta_gate" (Val.obj mg) = t := dSet_self t _ _ hmg
            refine ⟨?_, ?_⟩
            · have := h
              simp only [applyCoherence, hmg, pyIn, hmem, if_true, pyIdx, hc,
                hloop, pySetIdx, bind, Except.bind, Except.ok.injEq] at this
              rw [hmg_set, ht_set] at this
              exact this.symm
            · intro k _
              simp [dGetPath_cons, hmg, getPath, hc]
        | obj cfs =>
          obtain ⟨fs', hok, hchar⟩ := coherenceLoop_obj n bumpKeys (by decide) cfs
          right
          refine ⟨mg, cfs, fs', rfl, hc, ?_, hchar⟩
          have := h
          simp only [applyCoherence, hmg, pyIn, hmem, if_true, pyIdx, hc, hok,
            pySetIdx, bind, Except.bind, Except.ok.injEq] at this
          exact this.symm

theorem applyTriggers_cases (n : List (String × ℚ)) (t t' : List (String × Val))
    (h : applyTriggers n t = .ok t') :
    (t' = t ∧ dGetPath t ["gates", "triggers", "early_severance_below"] = none ∧
      dGetPath t ["gates", "triggers", "call_harmonizers_below"] = none) ∨
    (∃ g gfs gfs₂,
      dLookup t "gates" = some (.obj g) ∧
      dLookup g "triggers" = some (.obj gfs) ∧
      t' = dSet t "gates" (.obj (dSet g "triggers" (.obj gfs₂))) ∧
      (∀ k', k' ≠ "early_severance_below" → k' ≠ "call_harmonizers_below" →
        dLookup gfs₂ k' = dLookup gfs k') ∧
      (dLookup gfs₂ "early_severance_below" =
        (dLookup gfs "early_severance_below").map (fun v => bump n v "severance")) ∧
      ((dLookup gfs "call_harmonizers_below" = none ∧
        dLookup gfs₂ "call_harmonizers_below" = none) ∨
       (∃ qq, dLookup gfs "call_harmonizers_below" = some (.num qq) ∧
        dLookup gfs₂ "call_harmonizers_below" =
          some (.num (qq / max (1/2) (qGetD n "call_harmonizers_bias" 1)))))) := by
  have hnesc : ("call_harmonizers_below" : String) ≠ "early_severance_below" := by
    decide
  rcases hg : dLookup t "gates" with _ | gv
  · left
    refine ⟨?_, ?_, ?_⟩
    · have := h
      simp only [applyTriggers, hg, Except.ok.injEq] at this
      exact this.symm
    · simp [dGetPath_cons, hg]
    · simp [dGetPath_cons, hg]
  · cases gv with
    | num q =>
      simp [applyTriggers, hg, pyIn, bind, Except.bind] at h
    | str s =>
      rcases hb : pyInStr "triggers" s with _ | _
      · left
        refine ⟨?_, ?_, ?_⟩
        · have := h
          simp only [applyTriggers, hg, pyIn, hb, Bool.false_eq_true, if_false,
            bind, Except.bind, Except.ok.injEq] at this
          exact this.symm
        · simp [dGetPath_cons, hg, getPath]
        · simp [dGetPath_cons, hg, getPath]
      · simp [applyTriggers, hg, pyIn, hb, pyIdx, bind, Except.bind] at h
    | obj g =>
      rcases htr : dLookup g "triggers" with _ | gv2
      · have hmem : dMem g "triggers" = false := by simp [dMem, htr]
        left
        refine ⟨?_, ?_, ?_⟩
        · have := h
          simp only [applyTriggers, hg, pyIn, hmem, Bool.false_eq_true, if_false,
            bind, Except.bind, Except.ok.injEq] at this
          exact this.symm
        · simp [dGetPath_cons, hg, getPath, htr]
        · simp [dGetPath_cons, hg, getPath, htr]
      · have hmem : dMem g "triggers" = true := by simp [dMem, htr]
        cases gv2 with
        | num q =>
          simp [applyTriggers, hg, pyIn, hmem, pyIdx, htr, bind, Except.bind] at h
        | str s =>
          rcases hb1 : pyInStr "early_severance_below" s with _ | _
          · rcases hb2 : pyInStr "call_harmonizers_below" s with _ | _
            · left
              have hg_set : dSet g "triggers" (Val.str s) = g := dSet_self g _ _ htr
              have ht_set : dSet t "gates" (Val.obj g) = t := dSet_self t _ _ hg
              refine ⟨?_, ?_, ?_⟩
              · have := h
                simp only [applyTriggers, hg, pyIn, hmem, if_true, pyIdx, htr,
                  hb1, hb2, Bool.false_eq_true, if_false, pySetIdx, bind,
                  Except.bind, Except.ok.injEq] at this
                rw [hg_set, ht_set] at this
                exact this.symm
              · simp [dGetPath_cons, hg, getPath, htr]
              · simp [dGetPath_cons, hg, getPath, htr]
            · simp [applyTriggers, hg, pyIn, hmem, pyIdx, htr, hb1, hb2, bind,
                Except.bind] at h
          · simp [applyTriggers, hg, pyIn, hmem, pyIdx, htr, hb1, bind,
              Except.bind] at h
        | obj gfs =>
          rcases hsev : dLookup gfs "early_severance_below" with _ | v
          · have hm1 : dMem gfs "early_severance_below" = false := by
              simp [dMem, hsev]
            rcases hcall : dLookup gfs "call_harmonizers_below" with _ | cv
            · have hm2 : dMem gfs "call_harmonizers_below" = false := by
                simp [dMem, hcall]
              right
              refine ⟨g, gfs, gfs, rfl, htr, ?_, fun k' _ _ => rfl, ?_, Or.inl ⟨hcall, hcall⟩⟩
              · have := h
                simp only [applyTriggers, hg, pyIn, hmem, if_true, pyIdx, htr,
                  hm1, hm2, Bool.false_eq_true, if_false, pySetIdx, bind,
                  Except.bind, Except.ok.injEq] at this
                exact this.symm
              · rw [hsev]
                rfl
            · have hm2 : dMem gfs "call_harmonizers_below" = true := by
                simp [dMem, hcall]
              cases cv with
              | num qq =>
                right
                refine ⟨g, gfs,
                  dSet gfs "call_harmonizers_below"
                    (.num (qq / max (1/2) (qGetD n "call_harmonizers_bias" 1))),
                  rfl, htr, ?_, ?_, ?_, ?_⟩
                · have := h
                  simp only [applyTriggers, hg, pyIn, hmem, if_true, pyIdx, htr,
                    hm1, hm2, Bool.false_eq_true, if_false, hcall, pySetIdx,
                    bind, Except.bind, Except.ok.injEq] at this
                  exact this.symm
                · intro k' _ h2
                  exact dLookup_dSet_ne gfs _ k' _ h2
                · rw [dLookup_dSet_ne gfs _ _ _ (Ne.symm hnesc), hsev]
                  rfl
                · exact Or.inr ⟨qq, hcall, dLookup_dSet_self gfs _ _⟩
              | str s2 =>
                simp [applyTriggers, hg, pyIn, hmem, pyIdx, htr, hm1, hm2,
                  hcall, bind, Except.bind] at h
              | obj f2 =>
                simp [applyTriggers, hg, pyIn, hmem, pyIdx, htr, hm1, hm2,
                  hcall, bind, Except.bind] at h
          · have hm1 : dMem gfs "early_severance_below" = true := by
              simp [dMem, hsev]
            have hlook : dLookup (dSet gfs "early_severance_below"
                (bump n v "severance")) "call_harmonizers_below" =
                dLookup gfs "call_harmonizers_below" :=
              dLookup_dSet_ne gfs _ _ _ hnesc
            rcases hcall : dLookup gfs "call_harmonizers_below" with _ | cv
            · have hm2 : dMem (dSet gfs "early_severance_below"
                  (bump n v "severance")) "call_harmonizers_below" = false := by
                simp [dMem, hlook, hcall]
              right
              refine ⟨g, gfs, dSet gfs "early_severance_below" (bump n v "severance"),
                rfl, htr, ?_, ?_, ?_, Or.inl ⟨hcall, by rw [hlook, hcall]⟩⟩
              · have := h
                simp only [applyTriggers, hg, pyIn, hmem, if_true, pyIdx, htr,
                  hm1, hm2, hsev, Bool.false_eq_true, if_false, pySetIdx, bind,
                  Except.bind, Except.ok.injEq] at this
                exact this.symm
              · intro k' h1 _
                exact dLookup_dSet_ne gfs _ k' _ h1
              · rw [dLookup_dSet_self gfs _ _, hsev]
                rfl
            · have hm2 : dMem (dSet gfs "early_severance_below"
                  (bump n v "severance")) "call_harmonizers_below" =
                  (dLookup gfs "call_harmonizers_below").isSome := by
                simp [dMem, hlook]
              cases cv with
              | num qq =>
                right
                refine ⟨g, gfs,
                  dSet (dSet gfs "early_severance_below" (bump n v "severance"))
                    "call_harmonizers_below"
                    (.num (qq / max (1/2) (qGetD n "call_harmonizers_bias" 1))),
                  rfl, htr, ?_, ?_, ?_, ?_⟩
                · have := h
                  have hlkc : dLookup (dSet gfs "early_severance_below"
                      (bump n v "severance")) "call_harmonizers_below" =
                      some (.num qq) := by rw [hlook, hcall]
                  simp only [applyTriggers, hg, pyIn, hmem, if_true, pyIdx, htr,
                    hm1, hm2, hsev, hcall, hlkc, dMem, Option.isSome_some,
                    if_true, pySetIdx, bind, Except.bind, Except.ok.injEq] at this
                  exact this.symm
                · intro k' h1 h2
                  rw [dLookup_dSet_ne _ _ k' _ h2, dLookup_dSet_ne gfs _ k' _ h1]
                · rw [dLookup_dSet_ne _ _ _ _ (Ne.symm hnesc),
                    dLookup_dSet_self gfs _ _, hsev]
                  rfl
                · exact Or.inr ⟨qq, hcall, dLookup_dSet_self _ _ _⟩
              | str s2 =>
                have hlkc : dLookup (dSet gfs "early_severance_below"
                    (bump n v "severance")) "call_harmonizers_below" =
                    some (.str s2) := by rw [hlook, hcall]
                simp [applyTriggers, hg, pyIn, hmem, pyIdx, htr, hm1, hm2, hsev,
                  hlkc, dMem, pySetIdx, bind, Except.bind] at h
              | obj f2 =>
                have hlkc : dLookup (dSet gfs "early_severance_below"
                    (bump n v "severance")) "call_harmonizers_below" =
                    some (.obj f2) := by rw [hlook, hcall]
                simp [applyTriggers, hg, pyIn, hmem, pyIdx, htr, hm1, hm2, hsev,
                  hlkc, dMem, pySetIdx, bind, Except.bind] at h

theorem getPath_single (fs : List (String × Val)) (k : String) :
    getPath (.obj fs) [k] = dLookup fs k := by
  cases h : dLookup fs k <;> simp [getPath, h]

theorem dGetPath_single (t : List (String × Val)) (k : String) :
    dGetPath t [k] = dLookup t k := getPath_single t k

theorem dGetPath_three (t : List (String × Val)) (a b c : String)
    (g gfs : List (String × Val)) (hg : dLookup t a = some (.obj g))
    (htr : dLookup g b = some (.obj gfs)) :
    dGetPath t [a, b, c] = dLookup gfs c := by
  simp only [dGetPath, getPath, hg, htr]
  cases hx : dLookup gfs c <;> simp [hx]

theorem apply_lunar_nudges_split (t : List (String × Val)) (p : LunarPayload)
    (t' : List (String × Val)) (h : apply_lunar_nudges t (some p) = .ok t') :
    ∃ t1, applyCoherence p.nudges t = .ok t1 ∧ applyTriggers p.nudges t1 = .ok t' := by
  have h' : (applyCoherence p.nudges t >>= fun t1 => applyTriggers p.nudges t1) =
      .ok t' := h
  rcases h1 : applyCoherence p.nudges t with e | t1 <;>
    rw [h1] at h' <;>
    simp only [bind, Except.bind] at h'
  · cases h'
  · exact ⟨t1, rfl, h'⟩

theorem applyCoherence_frame (n : List (String × ℚ)) (t t' : List (String × Val))
    (h : applyCoherence n t = .ok t') (k : String) (hk : k ≠ "meta_gate")
    (ps : List String) : dGetPath t' (k :: ps) = dGetPath t (k :: ps) := by
  rcases applyCoherence_cases n t t' h with ⟨rfl, _⟩ | ⟨mg, cfs, fs', _, _, rfl, _⟩
  · rfl
  · exact dGetPath_dSet_ne_head t _ _ k ps hk

theorem applyTriggers_frame (n : List (String × ℚ)) (t t' : List (String × Val))
    (h : applyTriggers n t = .ok t') (k : String) (hk : k ≠ "gates")
    (ps : List String) : dGetPath t' (k :: ps) = dGetPath t (k :: ps) := by
  rcases applyTriggers_cases n t t' h with ⟨rfl, _⟩ | ⟨g, gfs, gfs₂, _, _, rfl, _⟩
  · rfl
  · exact dGetPath_dSet_ne_head t _ _ k ps hk

theorem bump_non_num (n : List (String × ℚ)) (v : Val) (key : String)
    (hv : ∀ q, v ≠ .num q) : bump n v key = v := by
  cases v with
  | num q => exact absurd rfl (hv q)
  | str s => rfl
  | obj fs => rfl

theorem applyCoherence_ok (n : List (String × ℚ)) (t : List (String × Val))
    (h1 : ∀ v, dLookup t "meta_gate" = some v → ∃ fs, v = .obj fs)
    (h2 : ∀ mg, dLookup t "meta_gate" = some (.obj mg) →
      ∀ v, dLookup mg "coherence" = some v → ∃ fs, v = .obj fs) :
    ∃ t1, applyCoherence n t = .ok t1 := by
  rcases hmg : dLookup t "meta_gate" with _ | mgVal
  · exact ⟨t, by simp [applyCoherence, hmg]⟩
  · obtain ⟨mg, rfl⟩ := h1 mgVal hmg
    rcases hc : dLookup mg "coherence" with _ | c
    · have hmem : dMem mg "coherence" = false := by simp [dMem, hc]
      exact ⟨t, by simp [applyCoherence, hmg, pyIn, hmem, bind, Except.bind]⟩
    · obtain ⟨cfs, rfl⟩ := h2 mg hmg c hc
      have hmem : dMem mg "coherence" = true := by simp [dMem, hc]
      obtain ⟨fs', hok, _⟩ := coherenceLoop_obj n bumpKeys (by decide) cfs
      refine ⟨dSet t "meta_gate" (.obj (dSet mg "coherence" (.obj fs'))), ?_⟩
      simp only [applyCoherence, hmg, pyIn, hmem, if_true, pyIdx,
        hc, hok, pySetIdx, bind, Except.bind]

theorem applyTriggers_ok (n : List (String × ℚ)) (t : List (String × Val))
    (h1 : ∀ v, dLookup t "gates" = some v → ∃ fs, v = .obj fs)
    (h2 : ∀ g, dLookup t "gates" = some (.obj g) →
      ∀ v, dLookup g "triggers" = some v → ∃ fs, v = .obj fs)
    (h3 : ∀ g gfs, dLookup t "gates" = some (.obj g) →
      dLookup g "triggers" = some (.obj gfs) →
      ∀ v, dLookup gfs "call_harmonizers_below" = some v → ∃ q, v = .num q) :
    ∃ t', applyTriggers n t = .ok t' := by
  have hnesc : ("call_harmonizers_below" : String) ≠ "early_severance_below" := by
    decide
  rcases hg : dLookup t "gates" with _ | gVal
  · exact ⟨t, by simp [applyTriggers, hg]⟩
  · obtain ⟨g, rfl⟩ := h1 gVal hg
    rcases htr : dLookup g "triggers" with _ | gv2
    · have hmem : dMem g "triggers" = false := by simp [dMem, htr]
      exact ⟨t, by simp [applyTriggers, hg, pyIn, hmem, bind, Except.bind]⟩
    · obtain ⟨gfs, rfl⟩ := h2 g hg gv2 htr
      have hmem : dMem g "triggers" = true := by simp [dMem, htr]
      rcases hsev : dLookup gfs "early_severance_below" with _ | v
      · have hm1 : dMem gfs "early_severance_below" = false := by simp [dMem, hsev]
        rcases hcall : dLookup gfs "call_harmonizers_below" with _ | cv
        · have hm2 : dMem gfs "call_harmonizers_below" = false := by
            simp [dMem, hcall]
          refine ⟨dSet t "gates" (.obj (dSet g "triggers" (.obj gfs))), ?_⟩
          simp only [applyTriggers, hg, pyIn, hmem, if_true, pyIdx,
            htr, hm1, hm2, Bool.false_eq_true, if_false, pySetIdx, bind,
            Except.bind]
        · obtain ⟨qq, rfl⟩ := h3 g gfs hg htr cv hcall
          have hm2 : dMem gfs "call_harmonizers_below" = true := by
            simp [dMem, hcall]
          refine ⟨dSet t "gates" (.obj (dSet g "triggers" (.obj (dSet gfs
            "call_harmonizers_below"
            (.num (qq / max (1/2) (qGetD n "call_harmonizers_bias" 1))))))), ?_⟩
          simp only [applyTriggers, hg, pyIn, hmem, if_true, pyIdx,
            htr, hm1, hm2, Bool.false_eq_true, if_false, hcall, pySetIdx, bind,
            Except.bind]
      · have hm1 : dMem gfs "early_severance_below" = true := by simp [dMem, hsev]
        have hlook : dLookup (dSet gfs "early_severance_below"
            (bump n v "severance")) "call_harmonizers_below" =
            dLookup gfs "call_harmonizers_below" :=
          dLookup_dSet_ne gfs _ _ _ hnesc
        rcases hcall : dLookup gfs "call_harmonizers_below" with _ | cv
        · have hm2 : dMem (dSet gfs "early_severance_below"
              (bump n v "severance")) "call_harmonizers_below" = false := by
            simp [dMem, hlook, hcall]
          refine ⟨dSet t "gates" (.obj (dSet g "triggers" (.obj (dSet gfs
            "early_severance_below" (bump n v "severance"))))), ?_⟩
          simp only [applyTriggers, hg, pyIn, hmem, if_true, pyIdx,
            htr, hm1, hsev, hm2, Bool.false_eq_true, if_false, pySetIdx, bind,
            Except.bind]
        · obtain ⟨qq, rfl⟩ := h3 g gfs hg htr cv hcall
          have hm2 : dMem (dSet gfs "early_severance_below"
              (bump n v "severance")) "call_harmonizers_below" = true := by
            simp [dMem, hlook, hcall]
          have hlkc : dLookup (dSet gfs "early_severance_below"
              (bump n v "severance")) "call_harmonizers_below" =
              some (.num qq) := by rw [hlook, hcall]
          refine ⟨dSet t "gates" (.obj (dSet g "triggers" (.obj (dSet
            (dSet gfs "early_severance_below" (bump n v "severance"))
            "call_harmonizers_below"
            (.num (qq / max (1/2) (qGetD n "call_harmonizers_bias" 1))))))), ?_⟩
          simp only [applyTriggers, hg, pyIn, hmem, if_true, pyIdx,
            htr, hm1, hsev, hm2, hlkc, pySetIdx, bind, Except.bind]

theorem getPath_obj_cons (fs : List (String × Val)) (k : String) (ps : List String) :
    getPath (.obj fs) (k :: ps) =
      (match dLookup fs k with
       | some v => getPath v ps
       | none => none) := rfl

theorem applyCoherence_full_frame (n : List (String × ℚ))
    (t t' : List (String × Val)) (h : applyCoherence n t = .ok t') :
    ∀ pth, (∀ k ∈ bumpKeys, isPathPre pth ["meta_gate", "coherence", k] = false) →
      dGetPath t' pth = dGetPath t pth := by
  intro pth hpre
  rcases applyCoherence_cases n t t' h with ⟨rfl, _⟩ |
    ⟨mg, cfs, fs', hmg, hc, rfl, hchar⟩
  · rfl
  · cases pth with
    | nil => exact absurd (hpre "warn_below" (by decide)) (by simp [isPathPre])
    | cons k ps =>
      by_cases hk : k = "meta_gate"
      · subst hk
        rw [dGetPath_dSet_head]
        cases ps with
        | nil => exact absurd (hpre "warn_below" (by decide)) (by simp [isPathPre])
        | cons k2 ps2 =>
          by_cases hk2 : k2 = "coherence"
          · subst hk2
            show dGetPath (dSet mg "coherence" (.obj fs')) ("coherence" :: ps2) = _
            rw [dGetPath_dSet_head]
            simp only [dGetPath_cons, hmg, getPath_obj_cons, hc]
            cases ps2 with
            | nil =>
              exact absurd (hpre "warn_below" (by decide)) (by simp [isPathPre])
            | cons k3 ps3 =>
              by_cases hk3 : k3 ∈ bumpKeys
              · cases ps3 with
                | nil =>
                  refine absurd (hpre k3 hk3) ?_
                  simp [isPathPre]
                | cons k4 ps4 =>
                  rw [getPath_obj_cons, getPath_obj_cons, hchar k3, if_pos hk3]
                  rcases hl : dLookup cfs k3 with _ | v
                  · rfl
                  · cases v <;> simp [bump, getPath]
              · rw [getPath_obj_cons, getPath_obj_cons, hchar k3, if_neg hk3]
          · show dGetPath (dSet mg "coherence" (.obj fs')) (k2 :: ps2) = _
            rw [dGetPath_dSet_ne_head mg _ _ k2 ps2 hk2]
            simp only [dGetPath_cons, hmg, getPath_obj_cons]
      · rw [dGetPath_dSet_ne_head t _ _ k ps hk]

theorem applyTriggers_full_frame (n : List (String × ℚ))
    (t t' : List (String × Val)) (h : applyTriggers n t = .ok t') :
    ∀ pth, isPathPre pth ["gates", "triggers", "early_severance_below"] = false →
      isPathPre pth ["gates", "triggers", "call_harmonizers_below"] = false →
      dGetPath t' pth = dGetPath t pth := by
  intro pth hp1 hp2
  rcases applyTriggers_cases n t t' h with ⟨rfl, _⟩ |
    ⟨g, gfs, gfs₂, hg, htr, rfl, hother, hsevc, hcallc⟩
  · rfl
  · cases pth with
    | nil => simp [isPathPre] at hp1
    | cons k ps =>
      by_cases hk : k = "gates"
      · subst hk
        rw [dGetPath_dSet_head]
        cases ps with
        | nil => simp [isPathPre] at hp1
        | cons k2 ps2 =>
          by_cases hk2 : k2 = "triggers"
          · subst hk2
            show dGetPath (dSet g "triggers" (.obj gfs₂)) ("triggers" :: ps2) = _
            rw [dGetPath_dSet_head]
            simp only [dGetPath_cons, hg, getPath_obj_cons, htr]
            cases ps2 with
            | nil => simp [isPathPre] at hp1
            | cons k3 ps3 =>
              by_cases h3a : k3 = "early_severance_below"
              · subst h3a
                cases ps3 with
                | nil => simp [isPathPre] at hp1
                | cons k4 ps4 =>
                  rw [getPath_obj_cons, getPath_obj_cons, hsevc]
                  rcases hl : dLookup gfs "early_severance_below" with _ | v
                  · rfl
                  · cases v <;> simp [bump, getPath]
              · by_cases h3b : k3 = "call_harmonizers_below"
                · subst h3b
                  cases ps3 with
                  | nil => simp [isPathPre] at hp2
                  | cons k4 ps4 =>
                    rw [getPath_obj_cons, getPath_obj_cons]
                    rcases hcallc with ⟨hn1, hn2⟩ | ⟨qq, hq1, hq2⟩
                    · rw [hn1, hn2]
                    · rw [hq1, hq2]
                      simp [getPath]
                · rw [getPath_obj_cons, getPath_obj_cons, hother k3 h3a h3b]
          · show dGetPath (dSet g "triggers" (.obj gfs₂)) (k2 :: ps2) = _
            rw [dGetPath_dSet_ne_head g _ _ k2 ps2 hk2]
            simp only [dGetPath_cons, hg, getPath_obj_cons]
      · rw [dGetPath_dSet_ne_head t _ _ k ps hk]

/-! ## Claim C9 -/

/-- Claim C9: every entry of the profile returned by
`apply_lunar_nudges` outside the five designated leaf paths equals the
corresponding entry of the input profile, and a non-numeric value at one
of the four multiplicative designated paths is returned unchanged. -/
theorem C9_apply_nudges_frame (t : List (String × Val)) (p : LunarPayload)
    (t' : List (String × Val)) (h : apply_lunar_nudges t (some p) = .ok t') :
    (∀ pth : List String, (∀ d ∈ designatedPaths, isPathPre pth d = false) →
      dGetPath t' pth = dGetPath t pth) ∧
    (∀ d ∈ multiplicativePaths, ∀ v, dGetPath t d = some v →
      (∀ q, v ≠ .num q) → dGetPath t' d = some v) := by
  obtain ⟨t1, h1, h2⟩ := apply_lunar_nudges_split t p t' h
  constructor
  · intro pth hpre
    have e2 : dGetPath t' pth = dGetPath t1 pth :=
      applyTriggers_full_frame p.nudges t1 t' h2 pth
        (hpre _ (by simp [designatedPaths])) (hpre _ (by simp [designatedPaths]))
    have e1 : dGetPath t1 pth = dGetPath t pth := by
      refine applyCoherence_full_frame p.nudges t t1 h1 pth ?_
      intro k hk
      have : ["meta_gate", "coherence", k] ∈ designatedPaths := by
        simp only [bumpKeys, List.mem_cons, List.not_mem_nil, or_false] at hk
        rcases hk with rfl | rfl | rfl <;> simp [designatedPaths]
      exact hpre _ this
    rw [e2, e1]
  · intro d hd v hv hnum
    simp only [multiplicativePaths, List.mem_cons, List.not_mem_nil, or_false] at hd
    have metaCase : ∀ k, k ∈ bumpKeys →
        d = ["meta_gate", "coherence", k] → dGetPath t' d = some v := by
      intro k hkmem hdk
      subst hdk
      have e2 : dGetPath t' ["meta_gate", "coherence", k] =
          dGetPath t1 ["meta_gate", "coherence", k] :=
        applyTriggers_frame p.nudges t1 t' h2 "meta_gate" (by decide) _
      rw [e2]
      rcases applyCoherence_cases p.nudges t t1 h1 with ⟨rfl, hnone⟩ |
        ⟨mg, cfs, fs', hmg, hc, rfl, hchar⟩
      · exact hv
      · have ht : dGetPath t ["meta_gate", "coherence", k] = dLookup cfs k :=
          dGetPath_three t _ _ _ mg cfs hmg hc
        rw [ht] at hv
        have ht1 : dGetPath (dSet t "meta_gate"
            (.obj (dSet mg "coherence" (.obj fs')))) ["meta_gate", "coherence", k] =
            dLookup fs' k :=
          dGetPath_three _ _ _ _ _ fs' (dLookup_dSet_self t _ _)
            (dLookup_dSet_self mg _ _)
        rw [ht1, hchar k, if_pos hkmem, hv]
        simp [bump_non_num p.nudges v _ hnum]
    rcases hd with rfl | rfl | rfl | rfl
    · exact metaCase _ (by decide) rfl
    · exact metaCase _ (by decide) rfl
    · exact metaCase _ (by decide) rfl
    · -- early_severance_below
      have e1 : dGetPath t1 ["gates", "triggers", "early_severance_below"] =
          dGetPath t ["gates", "triggers", "early_severance_below"] :=
        applyCoherence_frame p.nudges t t1 h1 "gates" (by decide) _
      rw [← e1] at hv
      rcases applyTriggers_cases p.nudges t1 t' h2 with ⟨rfl, hn1, hn2⟩ |
        ⟨g, gfs, gfs₂, hg, htr, rfl, hother, hsevc, hcallc⟩
      · exact hv
      · have ht1 : dGetPath t1 ["gates", "triggers", "early_severance_below"] =
            dLookup gfs "early_severance_below" :=
          dGetPath_three t1 _ _ _ g gfs hg htr
        rw [ht1] at hv
        have ht' : dGetPath (dSet t1 "gates"
            (.obj (dSet g "triggers" (.obj gfs₂))))
            ["gates", "triggers", "early_severance_below"] =
            dLookup gfs₂ "early_severance_below" :=
          dGetPath_three _ _ _ _ _ gfs₂ (dLookup_dSet_self t1 _ _)
            (dLookup_dSet_self g _ _)
        rw [ht', hsevc, hv]
        simp [bump_non_num p.nudges v _ hnum]

/-! ## Claim C8 -/

theorem apply_lunar_nudges_compose (t : List (String × Val)) (p : LunarPayload)
    (t1 t2 : List (String × Val)) (h1 : applyCoherence p.nudges t = .ok t1)
    (h2 : applyTriggers p.nudges t1 = .ok t2) :
    apply_lunar_nudges t (some p) = .ok t2 := by
  show (applyCoherence p.nudges t >>= fun x => applyTriggers p.nudges x) = .ok t2
  rw [h1]
  simpa [bind, Except.bind] using h2

/-- Claim C8: `apply_lunar_nudges` multiplies the three
`meta_gate.coherence` thresholds by the `coherence` lever, multiplies
`gates.triggers.early_severance_below` by the `severance` lever, divides
`gates.triggers.call_harmonizers_below` by
`max(0.5, call_harmonizers_bias)`, fires each rule only if its path
exists (an absent path stays absent and, for dict-shaped profiles, causes
no error), and never mutates its input (the embedding is a pure function
on the deep copy). -/
theorem C8_apply_nudges_rules (t : List (String × Val)) (p : LunarPayload)
    (t' : List (String × Val)) (h : apply_lunar_nudges t (some p) = .ok t') :
    (∀ k ∈ bumpKeys, ∀ q : ℚ,
      dGetPath t ["meta_gate", "coherence", k] = some (.num q) →
      dGetPath t' ["meta_gate", "coherence", k] =
        some (.num (q * qGetD p.nudges "coherence" 1))) ∧
    (∀ q : ℚ,
      dGetPath t ["gates", "triggers", "early_severance_below"] = some (.num q) →
      dGetPath t' ["gates", "triggers", "early_severance_below"] =
        some (.num (q * qGetD p.nudges "severance" 1))) ∧
    (∀ q : ℚ,
      dGetPath t ["gates", "triggers", "call_harmonizers_below"] = some (.num q) →
      dGetPath t' ["gates", "triggers", "call_harmonizers_below"] =
        some (.num (q / max (1/2) (qGetD p.nudges "call_harmonizers_bias" 1)))) ∧
    (∀ d ∈ designatedPaths, dGetPath t d = none → dGetPath t' d = none) ∧
    (∀ t0 : List (String × Val),
      (∀ v, dLookup t0 "meta_gate" = some v → ∃ fs, v = .obj fs) →
      (∀ mg, dLookup t0 "meta_gate" = some (.obj mg) →
        ∀ v, dLookup mg "coherence" = some v → ∃ fs, v = .obj fs) →
      (∀ v, dLookup t0 "gates" = some v → ∃ fs, v = .obj fs) →
      (∀ g, dLookup t0 "gates" = some (.obj g) →
        ∀ v, dLookup g "triggers" = some v → ∃ fs, v = .obj fs) →
      (∀ g gfs, dLookup t0 "gates" = some (.obj g) →
        dLookup g "triggers" = some (.obj gfs) →
        ∀ v, dLookup gfs "call_harmonizers_below" = some v → ∃ q, v = .num q) →
      ∃ t0', apply_lunar_nudges t0 (some p) = .ok t0') := by
  obtain ⟨t1, h1, h2⟩ := apply_lunar_nudges_split t p t' h
  have metaB : ∀ k ∈ bumpKeys, ∀ q : ℚ,
      dGetPath t ["meta_gate", "coherence", k] = some (.num q) →
      dGetPath t' ["meta_gate", "coherence", k] =
        some (.num (q * qGetD p.nudges "coherence" 1)) := by
    intro k hkmem q hv
    have e2 : dGetPath t' ["meta_gate", "coherence", k] =
        dGetPath t1 ["meta_gate", "coherence", k] :=
      applyTriggers_frame p.nudges t1 t' h2 "meta_gate" (by decide) _
    rw [e2]
    rcases applyCoherence_cases p.nudges t t1 h1 with ⟨rfl, hnone⟩ |
      ⟨mg, cfs, fs', hmg, hc, rfl, hchar⟩
    · simp [hnone k hkmem] at hv
    · have ht : dGetPath t ["meta_gate", "coherence", k] = dLookup cfs k :=
        dGetPath_three t _ _ _ mg cfs hmg hc
      rw [ht] at hv
      have ht1 : dGetPath (dSet t "meta_gate"
          (.obj (dSet mg "coherence" (.obj fs')))) ["meta_gate", "coherence", k] =
          dLookup fs' k :=
        dGetPath_three _ _ _ _ _ fs' (dLookup_dSet_self t _ _)
          (dLookup_dSet_self mg _ _)
      rw [ht1, hchar k, if_pos hkmem, hv]
      simp [bump]
  refine ⟨metaB, ?_, ?_, ?_, ?_⟩
  · intro q hv
    have e1 : dGetPath t1 ["gates", "triggers", "early_severance_below"] =
        dGetPath t ["gates", "triggers", "early_severance_below"] :=
      applyCoherence_frame p.nudges t t1 h1 "gates" (by decide) _
    rw [← e1] at hv
    rcases applyTriggers_cases p.nudges t1 t' h2 with ⟨rfl, hn1, hn2⟩ |
      ⟨g, gfs, gfs₂, hg, htr, rfl, hother, hsevc, hcallc⟩
    · simp [hn1] at hv
    · have ht1 : dGetPath t1 ["gates", "triggers", "early_severance_below"] =
          dLookup gfs "early_severance_below" :=
        dGetPath_three t1 _ _ _ g gfs hg htr
      rw [ht1] at hv
      have ht' : dGetPath (dSet t1 "gates" (.obj (dSet g "triggers" (.obj gfs₂))))
          ["gates", "triggers", "early_severance_below"] =
          dLookup gfs₂ "early_severance_below" :=
        dGetPath_three _ _ _ _ _ gfs₂ (dLookup_dSet_self t1 _ _)
          (dLookup_dSet_self g _ _)
      rw [ht', hsevc, hv]
      simp [bump]
  · intro q hv
    have e1 : dGetPath t1 ["gates", "triggers", "call_harmonizers_below"] =
        dGetPath t ["gates", "triggers", "call_harmonizers_below"] :=
      applyCoherence_frame p.nudges t t1 h1 "gates" (by decide) _
    rw [← e1] at hv
    rcases applyTriggers_cases p.nudges t1 t' h2 with ⟨rfl, hn1, hn2⟩ |
      ⟨g, gfs, gfs₂, hg, htr, rfl, hother, hsevc, hcallc⟩
    · simp [hn2] at hv
    · have ht1 : dGetPath t1 ["gates", "triggers", "call_harmonizers_below"] =
          dLookup gfs "call_harmonizers_below" :=
        dGetPath_three t1 _ _ _ g gfs hg htr
      rw [ht1] at hv
      have ht' : dGetPath (dSet t1 "gates" (.obj (dSet g "triggers" (.obj gfs₂))))
          ["gates", "triggers", "call_harmonizers_below"] =
          dLookup gfs₂ "call_harmonizers_below" :=
        dGetPath_three _ _ _ _ _ gfs₂ (dLookup_dSet_self t1 _ _)
          (dLookup_dSet_self g _ _)
      rcases hcallc with ⟨hn, _⟩ | ⟨qq, hq1, hq2⟩
      · rw [hn] at hv
        cases hv
      · rw [hq1] at hv
        obtain rfl : qq = q := by simpa using hv
        rw [ht', hq2]
  · intro d hd hv
    simp only [designatedPaths, List.mem_cons, List.not_mem_nil, or_false] at hd
    have metaAbs : ∀ k, k ∈ bumpKeys → d = ["meta_gate", "coherence", k] →
        dGetPath t' d = none := by
      intro k hkmem hdk
      subst hdk
      have e2 : dGetPath t' ["meta_gate", "coherence", k] =
          dGetPath t1 ["meta_gate", "coherence", k] :=
        applyTriggers_frame p.nudges t1 t' h2 "meta_gate" (by decide) _
      rw [e2]
      rcases applyCoherence_cases p.nudges t t1 h1 with ⟨rfl, _⟩ |
        ⟨mg, cfs, fs', hmg, hc, rfl, hchar⟩
      · exact hv
      · have ht : dGetPath t ["meta_gate", "coherence", k] = dLookup cfs k :=
          dGetPath_three t _ _ _ mg cfs hmg hc
        rw [ht] at hv
        have ht1 : dGetPath (dSet t "meta_gate"
            (.obj (dSet mg "coherence" (.obj fs')))) ["meta_gate", "coherence", k] =
            dLookup fs' k :=
          dGetPath_three _ _ _ _ _ fs' (dLookup_dSet_self t _ _)
            (dLookup_dSet_self mg _ _)
        rw [ht1, hchar k, if_pos hkmem, hv]
        rfl
    have gatesAbs : ∀ c : String, c = "early_severance_below" ∨
        c = "call_harmonizers_below" → d = ["gates", "triggers", c] →
        dGetPath t' d = none := by
      intro c hc hdc
      subst hdc
      have e1 : dGetPath t1 ["gates", "triggers", c] =
          dGetPath t ["gates", "triggers", c] :=
        applyCoherence_frame p.nudges t t1 h1 "gates" (by decide) _
      rw [← e1] at hv
      rcases applyTriggers_cases p.nudges t1 t' h2 with ⟨rfl, _, _⟩ |
        ⟨g, gfs, gfs₂, hg, htr, rfl, hother, hsevc, hcallc⟩
      · exact hv
      · have ht1 : dGetPath t1 ["gates", "triggers", c] = dLookup gfs c :=
          dGetPath_three t1 _ _ _ g gfs hg htr
        rw [ht1] at hv
        have ht' : dGetPath (dSet t1 "gates" (.obj (dSet g "triggers" (.obj gfs₂))))
            ["gates", "triggers", c] = dLookup gfs₂ c :=
          dGetPath_three _ _ _ _ _ gfs₂ (dLookup_dSet_self t1 _ _)
            (dLookup_dSet_self g _ _)
        rw [ht']
        rcases hc with rfl | rfl
        · rw [hsevc, hv]
          rfl
        · rcases hcallc with ⟨_, hn2'⟩ | ⟨qq, hq1, _⟩
          · exact hn2'
          · rw [hq1] at hv
            cases hv
    rcases hd with rfl | rfl | rfl | rfl | rfl
    · exact metaAbs _ (by decide) rfl
    · exact metaAbs _ (by decide) rfl
    · exact metaAbs _ (by decide) rfl
    · exact gatesAbs _ (Or.inl rfl) rfl
    · exact gatesAbs _ (Or.inr rfl) rfl
  · intro t0 w1 w2 w3 w4 w5
    obtain ⟨t1', hco⟩ := applyCoherence_ok p.nudges t0 w1 w2
    have hgeq : dLookup t1' "gates" = dLookup t0 "gates" := by
      rcases applyCoherence_cases p.nudges t0 t1' hco with ⟨rfl, _⟩ |
        ⟨mg, cfs, fs', hmg, hc, rfl, _⟩
      · rfl
      · exact dLookup_dSet_ne t0 _ _ _ (by decide)
    obtain ⟨t2', htrig⟩ := applyTriggers_ok p.nudges t1'
      (fun v hv => w3 v (hgeq ▸ hv))
      (fun g hg v hv => w4 g (hgeq ▸ hg) v hv)
      (fun g gfs hg htr v hv => w5 g gfs (hgeq ▸ hg) htr v hv)
    exact ⟨t2', apply_lunar_nudges_compose t0 p t1' t2' hco htrig⟩

/-- Closed instance of C8 on the fixture profile and Full Moon payload:
`warn_below` is multiplied by the coherence lever and
`call_harmonizers_below` is divided by `max(0.5, bias)`. -/
theorem C8_apply_nudges_rules_witness :
    ∃ t', apply_lunar_nudges t₀ (some payload₀) = .ok t' ∧
      dGetPath t' ["meta_gate", "coherence", "warn_below"] =
        some (.num ((1/2) * qGetD payload₀.nudges "coherence" 1)) ∧
      dGetPath t' ["gates", "triggers", "call_harmonizers_below"] =
        some (.num ((3/5) / max (1/2)
          (qGetD payload₀.nudges "call_harmonizers_bias" 1))) := by
  obtain ⟨t', ht'⟩ : ∃ t', apply_lunar_nudges t₀ (some payload₀) = .ok t' :=
    ⟨_, rfl⟩
  refine ⟨t', ht', ?_, ?_⟩
  · exact (C8_apply_nudges_rules t₀ payload₀ t' ht').1 "warn_below" (by decide)
      (1/2) rfl
  · exact (C8_apply_nudges_rules t₀ payload₀ t' ht').2.2.1 (3/5) rfl

/-- Closed instance of C9 on the fixture profile: the `other` entry and
the non-designated `note` entry inside `meta_gate.coherence` are
unchanged. -/
theorem C9_apply_nudges_frame_witness :
    ∃ t', apply_lunar_nudges t₀ (some payload₀) = .ok t' ∧
      dGetPath t' ["other"] = dGetPath t₀ ["other"] ∧
      dGetPath t' ["meta_gate", "coherence", "note"] =
        dGetPath t₀ ["meta_gate", "coherence", "note"] := by
  obtain ⟨t', ht'⟩ : ∃ t', apply_lunar_nudges t₀ (some payload₀) = .ok t' :=
    ⟨_, rfl⟩
  refine ⟨t', ht', ?_, ?_⟩
  · exact (C9_apply_nudges_frame t₀ payload₀ t' ht').1 ["other"] (by decide)
  · exact (C9_apply_nudges_frame t₀ payload₀ t' ht').1
      ["meta_gate", "coherence", "note"] (by decide)

end ShamanGround
